import Mathlib

/-!
Verification of the Hive agent-coordination broker
(`src/client/connection.ts`: `HiveBroker`, `Inbox`, and the reservation
arbiter helpers `normalizeReservationPath`, `reservationPathsOverlap`,
`dedupePaths`).

The broker state is embedded shallowly: JavaScript `Map`s become
insertion-ordered association lists (`alGet` / `alSet` / `alDelete` mirror
`Map.get` / `Map.set` / `Map.delete`: `set` updates in place when the key
exists and appends otherwise, exactly the JS iteration-order contract),
and each message handler becomes a pure function from broker state to a
new state paired with the list of `(recipient id, message)` sends it
performs.  Wall-clock values (`new Date().toISOString()`) are threaded in
as explicit `now` arguments; the per-connection heartbeat timestamp is
not modelled (no claim mentions it, and no handler's observable behaviour
reads it except the reaper, which is untimed here).
-/

namespace Hive

/-- Association list with JS `Map` semantics: first binding wins on `get`. -/
def alGet {α : Type} : List (String × α) → String → Option α
  | [], _ => none
  | (k', v) :: rest, k => if k' = k then some v else alGet rest k

/-- JS `Map.set`: replace in place if the key exists, else append. -/
def alSet {α : Type} : List (String × α) → String → α → List (String × α)
  | [], k, v => [(k, v)]
  | (k', v') :: rest, k, v =>
    if k' = k then (k, v) :: rest else (k', v') :: alSet rest k v

/-- JS `Map.delete`: remove the binding for the key. -/
def alDelete {α : Type} : List (String × α) → String → List (String × α)
  | [], _ => []
  | (k', v') :: rest, k =>
    if k' = k then alDelete rest k else (k', v') :: alDelete rest k

/-- JS `Map.has`. -/
def alHas {α : Type} (m : List (String × α)) (k : String) : Bool :=
  (alGet m k).isSome

/-- The keys of an association list, in iteration order. -/
def alKeys {α : Type} (m : List (String × α)) : List String :=
  m.map (fun e => e.1)

/-- A well-formed JS `Map` has no duplicate keys. -/
def NodupKeys {α : Type} (m : List (String × α)) : Prop :=
  (alKeys m).Nodup

-- ── Computable string primitives ───────────────────────────────────────
-- Lean core's `String.trim` / `startsWith` / `endsWith` are substring- and
-- well-founded-recursion based and do not reduce inside the kernel, so the
-- JS string operations the broker uses are embedded as structural
-- recursions over the character list instead.

/-- JS `String.prototype.trim`: strip leading and trailing whitespace. -/
def jsTrim (s : String) : String :=
  String.mk (((s.data.dropWhile Char.isWhitespace).reverse.dropWhile
      Char.isWhitespace).reverse)

/-- Whether the last character of `s` is `c` (JS `endsWith` for one char,
or the regex `/c$/`). -/
def endsWithChar (s : String) (c : Char) : Bool :=
  match s.data.getLast? with
  | some d => d == c
  | none => false

/-- JS `a.startsWith(b)`. -/
def strStartsWith (s p : String) : Bool :=
  p.data.isPrefixOf s.data

/-- JS `a.slice(0, -1)`: everything but the last character. -/
def strDropLast (s : String) : String :=
  String.mk s.data.dropLast

-- ── Reservation arbiter helpers (source lines 521-560) ─────────────────

/-- Collapse runs of consecutive `/` characters to a single `/`
(the `replace(/\/+/g, "/")` step). -/
def squeezeSlashes : List Char → List Char
  | [] => []
  | [c] => [c]
  | a :: b :: rest =>
    if a = '/' ∧ b = '/' then squeezeSlashes (b :: rest)
    else a :: squeezeSlashes (b :: rest)

/-- Drop every trailing `/` (the `replace(/\/+$/, "")` step). -/
def stripTrailingSlashes (cs : List Char) : List Char :=
  (cs.reverse.dropWhile (fun c => c = '/')).reverse

/-- `normalizeReservationPath` from the source: trim, remember whether the
input ended in a slash or backslash (directory marker), turn backslashes
into slashes, collapse slash runs, strip trailing slashes, re-append one
`/` iff the input was a directory. -/
def normalizeReservationPath (raw : String) : String :=
  let p := jsTrim raw
  if p = "" then ""
  else
    let isDir := endsWithChar p '/' || endsWithChar p '\\'
    let cs := p.data.map (fun c => if c = '\\' then '/' else c)
    let cs := stripTrailingSlashes (squeezeSlashes cs)
    if isDir then
      String.mk cs ++ "/"
    else
      if cs = [] then "" else String.mk cs

/-- `reservationPathsOverlap` from the source. -/
def reservationPathsOverlap (a b : String) : Bool :=
  if a = b then true
  else if endsWithChar a '/' && (strStartsWith b a || b == strDropLast a) then
    true
  else if endsWithChar b '/' && (strStartsWith a b || a == strDropLast b) then
    true
  else false

/-- Body of `dedupePaths`: `seen` is the set of already-emitted paths. -/
def dedupeGo : List String → List String → List String
  | [], _ => []
  | p :: rest, seen =>
    if p ∈ seen then dedupeGo rest seen else p :: dedupeGo rest (p :: seen)

/-- `dedupePaths` from the source: keep the first occurrence of each path. -/
def dedupePaths (paths : List String) : List String :=
  dedupeGo paths []

-- ── Decimal rendering of a natural (JS template literal `${i}`) ────────

/-- Decimal digits of `n`, least significant first (empty for `0`), with
structural fuel; `digitsRev` instantiates the fuel with `n` itself, which
`digitsRevFuel_eq` below shows is always enough. -/
def digitsRevFuel : Nat → Nat → List Nat
  | _, 0 => []
  | 0, _ + 1 => []
  | fuel + 1, n + 1 => ((n + 1) % 10) :: digitsRevFuel fuel ((n + 1) / 10)

/-- Decimal digits of `n`, least significant first (empty for `0`). -/
def digitsRev (n : Nat) : List Nat :=
  digitsRevFuel n n

/-- The decimal string for `n`, as JS `String(n)` produces it. -/
def natToString (n : Nat) : String :=
  if n = 0 then "0" else String.mk ((digitsRev n).reverse.map Nat.digitChar)

-- ── Data model (src/types.ts) ──────────────────────────────────────────

/-- `AgentInfo` from `src/types.ts`. -/
structure AgentInfo where
  id : String
  name : String
  role : String
  parentId : Option String
  cwd : String
  status : String
  channels : List String
  interactive : Bool
  statusMessage : Option String
  lastActivityAt : Option String
deriving DecidableEq

/-- `ReservationInfo` from `src/types.ts`. -/
structure ReservationInfo where
  paths : List String
  reason : Option String
deriving DecidableEq

/-- `ChannelInfo` from `src/types.ts`. -/
structure ChannelInfo where
  name : String
  members : List String
  createdBy : String
deriving DecidableEq

/-- Broker-private `Channel` record: member ids are kept as an
insertion-ordered duplicate-free list (JS `Set`). -/
structure Channel where
  name : String
  members : List String
  createdBy : String
deriving DecidableEq

/-- The `register` client message's payload. -/
structure RegisterMsg where
  id : String
  name : String
  role : String
  parentId : Option String
  cwd : String
  interactive : Bool
deriving DecidableEq

/-- `ClientMessage` from `src/broker/protocol.ts`. -/
inductive ClientMessage where
  | register (m : RegisterMsg)
  | dm (toName content : String) (correlationId : Option String)
  | dmResponse (toName correlationId content : String)
  | broadcast (content : String)
  | channelCreate (channel : String)
  | channelJoin (channel : String)
  | channelLeave (channel : String)
  | channelSend (channel content : String)
  | listAgents
  | listChannels
  | reserve (paths : List String) (reason : Option String)
  | release (paths : Option (List String))
  | rename (name : String)
  | presenceUpdate (statusMessage : Option String) (lastActivityAt : String)
  | statusUpdate (status : String)
  | heartbeat
deriving DecidableEq

/-- `BrokerMessage` from `src/broker/protocol.ts`. -/
inductive BrokerMessage where
  | registered (id : String) (agents : List AgentInfo)
      (reservations : List (String × ReservationInfo))
  | agentJoined (agent : AgentInfo)
  | agentLeft (id name : String)
  | agentRenamed (id oldName newName : String)
  | dm (fromId fromName content : String) (correlationId : Option String)
  | dmResponse (fromId fromName correlationId content : String)
  | broadcast (fromId fromName content : String)
  | channelCreated (channel byName : String)
  | channelJoined (channel agentId agentName : String)
  | channelLeft (channel agentId agentName : String)
  | channelMessage (channel fromId fromName content : String)
  | channelSent (channel : String)
  | agentList (agents : List AgentInfo)
  | channelList (channels : List ChannelInfo)
  | reservationsUpdated (reservations : List (String × ReservationInfo))
  | statusChanged (id name status : String)
      (statusMessage : Option String) (lastActivityAt : Option String)
  | errorMsg (message : String) (correlationId : Option String)
  | heartbeatAck
deriving DecidableEq

/-- A send performed by the broker: recipient agent id and the message
written to that agent's socket. -/
abbrev Send := String × BrokerMessage

/-- The broker's mutable state (`HiveBroker`'s four maps). -/
structure BrokerState where
  agents : List (String × AgentInfo)
  nameToId : List (String × String)
  channels : List (String × Channel)
  reservations : List (String × ReservationInfo)
deriving DecidableEq

/-- The freshly started broker: all four maps empty. -/
def initState : BrokerState := ⟨[], [], [], []⟩

/-- `getAgents`: the roster in registry iteration order. -/
def getAgents (s : BrokerState) : List AgentInfo :=
  s.agents.map (fun e => e.2)

/-- `getChannels`: the channel table as `ChannelInfo` values. -/
def getChannelInfos (s : BrokerState) : List ChannelInfo :=
  s.channels.map (fun e => ⟨e.2.name, e.2.members, e.2.createdBy⟩)

/-- `getReservations`: a value copy of the reservation table. -/
def getReservations (s : BrokerState) : List (String × ReservationInfo) :=
  s.reservations

/-- `broadcastAll`: send `msg` to every registered agent in registry order. -/
def broadcastAll (agents : List (String × AgentInfo)) (msg : BrokerMessage) :
    List Send :=
  agents.map (fun e => (e.1, msg))

/-- `broadcastExcept`: send `msg` to every registered agent except `ex`. -/
def broadcastExcept (agents : List (String × AgentInfo)) (ex : String)
    (msg : BrokerMessage) : List Send :=
  agents.filterMap (fun e => if e.1 = ex then none else some (e.1, msg))

/-- `broadcastReservationsUpdated`. -/
def broadcastReservationsUpdated (s : BrokerState) : List Send :=
  broadcastAll s.agents (.reservationsUpdated (getReservations s))

-- ── Registration (handleRegister, lines 710-756) ───────────────────────

/-- The `while (this.nameToId.has(name-i)) i++` loop of `handleRegister`,
with explicit fuel.  `findSuffix_total` below shows fuel
`nameToId.length + 1` always suffices, so the `none` arm is dead code. -/
def findSuffix (taken : String → Bool) (base : String) :
    Nat → Nat → Option Nat
  | 0, _ => none
  | fuel + 1, i =>
    if taken (base ++ "-" ++ natToString i) then
      findSuffix taken base fuel (i + 1)
    else some i

/-- Unique-name resolution of `handleRegister`: take the requested name if
free, else the smallest `-k` suffix with `k ≥ 2` that is free. -/
def resolveName (nameToId : List (String × String)) (base : String) :
    String :=
  if alHas nameToId base then
    match findSuffix (fun n => alHas nameToId n) base (nameToId.length + 1) 2 with
    | some i => base ++ "-" ++ natToString i
    | none => base
  else base

/-- `handleRegister`: install the agent under its resolved name, reply
`registered` with the full roster and reservation map, and notify
everyone else with `agent_joined`. -/
def handleRegister (s : BrokerState) (now : String) (m : RegisterMsg) :
    BrokerState × List Send :=
  let name := resolveName s.nameToId m.name
  let info : AgentInfo :=
    { id := m.id, name := name, role := m.role, parentId := m.parentId,
      cwd := m.cwd, status := "idle", channels := [],
      interactive := m.interactive, statusMessage := none,
      lastActivityAt := some now }
  let s' : BrokerState :=
    { s with agents := alSet s.agents m.id info,
             nameToId := alSet s.nameToId name m.id }
  (s', (m.id, .registered m.id (getAgents s') (getReservations s')) ::
        broadcastExcept s'.agents m.id (.agentJoined info))

-- ── Disconnect (handleDisconnect, lines 758-790) ───────────────────────

/-- `handleDisconnect`: drop the agent from registry, name map, every
channel (deleting channels that become empty) and the reservation table;
broadcast `agent_left` and, if a reservation was dropped,
`reservations_updated`. -/
def handleDisconnect (s : BrokerState) (agentId : String) :
    BrokerState × List Send :=
  match alGet s.agents agentId with
  | none => (s, [])
  | some agent =>
    let name := agent.name
    let hadReservations := alHas s.reservations agentId
    let channels' :=
      (s.channels.map (fun e =>
        (e.1, { e.2 with members := e.2.members.filter (fun x => x ≠ agentId) })))
      |>.filter (fun e => !e.2.members.isEmpty)
    let s' : BrokerState :=
      { agents := alDelete s.agents agentId,
        nameToId := alDelete s.nameToId name,
        channels := channels',
        reservations := alDelete s.reservations agentId }
    (s', broadcastExcept s'.agents agentId (.agentLeft agentId name) ++
          (if hadReservations then broadcastReservationsUpdated s' else []))

-- ── Routing handlers (lines 854-1234) ──────────────────────────────────

/-- `handleDm`: route to the agent named `to`, else error to the sender.
The source guards with `if (!targetId)` — JS truthiness — so a target
whose registered id is the empty string also counts as not online. -/
def handleDm (s : BrokerState) (senderId : String) (sender : AgentInfo)
    (toName content : String) (correlationId : Option String) :
    BrokerState × List Send :=
  match alGet s.nameToId toName with
  | none =>
    (s, [(senderId, .errorMsg ("Agent \"" ++ toName ++ "\" is not online") correlationId)])
  | some targetId =>
    if targetId = "" then
      (s, [(senderId, .errorMsg ("Agent \"" ++ toName ++ "\" is not online") correlationId)])
    else
      match alGet s.agents targetId with
      | none =>
        (s, [(senderId, .errorMsg ("Agent \"" ++ toName ++ "\" is not online") correlationId)])
      | some _ =>
        (s, [(targetId, .dm senderId sender.name content correlationId)])

/-- `handleDmResponse`: route to `to`, silently dropped when unknown.
As in `handleDm`, the source drops on a falsy `targetId`, which includes
the empty-string id. -/
def handleDmResponse (s : BrokerState) (senderId : String)
    (sender : AgentInfo) (toName correlationId content : String) :
    BrokerState × List Send :=
  match alGet s.nameToId toName with
  | none => (s, [])
  | some targetId =>
    if targetId = "" then (s, [])
    else
      match alGet s.agents targetId with
      | none => (s, [])
      | some _ =>
        (s, [(targetId, .dmResponse senderId sender.name correlationId content)])

/-- `handleBroadcast`: fan out to everyone but the sender. -/
def handleBroadcast (s : BrokerState) (senderId : String)
    (sender : AgentInfo) (content : String) : BrokerState × List Send :=
  (s, broadcastExcept s.agents senderId
        (.broadcast senderId sender.name content))

/-- `handleChannelCreate`: create the channel with the sender as its only
member, record the sender's display name as `createdBy`, append the
channel to the sender's `channels`, and notify all agents. -/
def handleChannelCreate (s : BrokerState) (senderId : String)
    (sender : AgentInfo) (ch : String) : BrokerState × List Send :=
  if alHas s.channels ch then
    (s, [(senderId, .errorMsg ("Channel \"" ++ ch ++ "\" already exists") none)])
  else
    let channel : Channel := { name := ch, members := [senderId], createdBy := sender.name }
    let sender' := { sender with channels := sender.channels ++ [ch] }
    let s' : BrokerState :=
      { s with channels := alSet s.channels ch channel,
               agents := alSet s.agents senderId sender' }
    (s', broadcastAll s'.agents (.channelCreated ch sender.name))

/-- `handleChannelJoin`. -/
def handleChannelJoin (s : BrokerState) (senderId : String)
    (sender : AgentInfo) (ch : String) : BrokerState × List Send :=
  match alGet s.channels ch with
  | none =>
    (s, [(senderId, .errorMsg ("Channel \"" ++ ch ++ "\" does not exist") none)])
  | some channel =>
    let members' :=
      if senderId ∈ channel.members then channel.members
      else channel.members ++ [senderId]
    let sender' :=
      if ch ∈ sender.channels then sender
      else { sender with channels := sender.channels ++ [ch] }
    let s' : BrokerState :=
      { s with channels := alSet s.channels ch { channel with members := members' },
               agents := alSet s.agents senderId sender' }
    (s', members'.filterMap (fun mid =>
          match alGet s'.agents mid with
          | some _ => some (mid, .channelJoined ch senderId sender.name)
          | none => none))

/-- `handleChannelLeave`. -/
def handleChannelLeave (s : BrokerState) (senderId : String)
    (sender : AgentInfo) (ch : String) : BrokerState × List Send :=
  match alGet s.channels ch with
  | none =>
    (s, [(senderId, .errorMsg ("Channel \"" ++ ch ++ "\" does not exist") none)])
  | some channel =>
    if ¬ senderId ∈ channel.members then
      (s, [(senderId,
            .errorMsg ("You are not a member of channel \"" ++ ch ++ "\"") none)])
    else
      let members' := channel.members.filter (fun x => x ≠ senderId)
      let sender' := { sender with channels := sender.channels.filter (fun c => c ≠ ch) }
      let channels' :=
        if members'.isEmpty then alDelete s.channels ch
        else alSet s.channels ch { channel with members := members' }
      let s' : BrokerState := { s with channels := channels', agents := alSet s.agents senderId sender' }
      (s', (senderId, .channelLeft ch senderId sender.name) ::
            members'.filterMap (fun mid =>
              match alGet s'.agents mid with
              | some _ => some (mid, .channelLeft ch senderId sender.name)
              | none => none))

/-- `handleChannelSend`: deliver to all members but the sender, then ack
the sender with `channel_sent`. -/
def handleChannelSend (s : BrokerState) (senderId : String)
    (sender : AgentInfo) (ch content : String) : BrokerState × List Send :=
  match alGet s.channels ch with
  | none =>
    (s, [(senderId, .errorMsg ("Channel \"" ++ ch ++ "\" does not exist") none)])
  | some channel =>
    if ¬ senderId ∈ channel.members then
      (s, [(senderId,
            .errorMsg ("You are not a member of channel \"" ++ ch ++ "\"") none)])
    else
      (s, (channel.members.filterMap (fun mid =>
            if mid = senderId then none
            else match alGet s.agents mid with
              | some _ => some (mid, .channelMessage ch senderId sender.name content)
              | none => none)) ++
          [(senderId, .channelSent ch)])

-- ── Reservations (handleReserve / handleRelease, lines 1074-1155) ──────

/-- The conflict scan of `handleReserve`: first reservation of a different
agent holding a path that overlaps one of the incoming normalized paths. -/
def findConflict (reservations : List (String × ReservationInfo))
    (senderId : String) (normalized : List String) :
    Option (String × ReservationInfo) :=
  normalized.findSome? (fun targetPath =>
    reservations.findSome? (fun e =>
      if e.1 = senderId then none
      else if e.2.paths.any (fun rp => reservationPathsOverlap targetPath rp) then
        some e
      else none))

/-- The owner name shown in a conflict error:
`this.agents.get(ownerId)?.info.name || ownerId`. -/
def conflictOwnerName (s : BrokerState) (ownerId : String) : String :=
  match alGet s.agents ownerId with
  | some a => if a.name = "" then ownerId else a.name
  | none => ownerId

/-- The reason suffix of a conflict error:
`reservation.reason ? ": " + reservation.reason : ""`. -/
def conflictReasonText (r : ReservationInfo) : String :=
  match r.reason with
  | some reason => if reason = "" then "" else ": " ++ reason
  | none => ""

/-- `handleReserve`: normalize and dedupe, reject on empty or on overlap
with another agent's reservation, else merge into the caller's entry and
broadcast `reservations_updated`. -/
def handleReserve (s : BrokerState) (senderId : String)
    (paths : List String) (reason : Option String) :
    BrokerState × List Send :=
  let normalized :=
    dedupePaths ((paths.map normalizeReservationPath).filter (fun p => p ≠ ""))
  if normalized = [] then
    (s, [(senderId, .errorMsg "No valid paths to reserve" none)])
  else
    match findConflict s.reservations senderId normalized with
    | some (ownerId, reservation) =>
      (s, [(senderId, .errorMsg
              ("File reserved by " ++ conflictOwnerName s ownerId ++
               conflictReasonText reservation) none)])
    | none =>
      let existing := alGet s.reservations senderId
      let merged :=
        dedupePaths ((match existing with
          | some e => e.paths
          | none => []) ++ normalized)
      let reason' :=
        match reason with
        | some r => some r
        | none => existing.bind (fun e => e.reason)
      let s' : BrokerState :=
        { s with reservations :=
            alSet s.reservations senderId { paths := merged, reason := reason' } }
      (s', broadcastReservationsUpdated s')

/-- `handleRelease`: with no paths drop the caller's whole entry; with
paths drop exactly the reserved paths equal to a normalized released
path, deleting the entry if it empties; always broadcast
`reservations_updated`. -/
def handleRelease (s : BrokerState) (senderId : String)
    (paths : Option (List String)) : BrokerState × List Send :=
  match alGet s.reservations senderId with
  | none => (s, broadcastReservationsUpdated s)
  | some existing =>
    let empty := match paths with
      | none => true
      | some ps => ps.isEmpty
    if empty then
      let s' : BrokerState := { s with reservations := alDelete s.reservations senderId }
      (s', broadcastReservationsUpdated s')
    else
      let toRelease :=
        ((paths.getD []).map normalizeReservationPath).filter (fun p => p ≠ "")
      let remaining := existing.paths.filter (fun p => ¬ p ∈ toRelease)
      let s' : BrokerState :=
        { s with reservations :=
            if remaining = [] then alDelete s.reservations senderId
            else alSet s.reservations senderId
                   { paths := remaining, reason := existing.reason } }
      (s', broadcastReservationsUpdated s')

-- ── Rename / presence / status (lines 1157-1234) ───────────────────────

/-- The taken-name guard of `handleRename`:
`if (ownerId && ownerId !== sender.info.id)` — JS truthiness — so a name
owned by the agent whose id is the empty string does **not** trigger the
error and the rename proceeds. -/
def renameTaken (nameToId : List (String × String))
    (senderId newName : String) : Bool :=
  match alGet nameToId newName with
  | some ownerId => decide (ownerId ≠ "") && decide (ownerId ≠ senderId)
  | none => false

/-- `handleRename`: reject empty or taken names (per `renameTaken`);
otherwise update the name map, the info record and matching `createdBy`
fields (skipping all of that when the name is unchanged), then broadcast
`agent_renamed` to all — including on a no-op rename. -/
def handleRename (s : BrokerState) (senderId : String)
    (sender : AgentInfo) (name : String) : BrokerState × List Send :=
  let newName := jsTrim name
  let oldName := sender.name
  if newName = "" then
    (s, [(senderId, .errorMsg "Name cannot be empty" none)])
  else
    if renameTaken s.nameToId senderId newName then
      (s, [(senderId, .errorMsg
              ("Agent name \"" ++ newName ++ "\" is already taken") none)])
    else
      let s' :=
        if oldName ≠ newName then
          { s with
            nameToId := alSet (alDelete s.nameToId oldName) newName senderId,
            agents := alSet s.agents senderId { sender with name := newName },
            channels := s.channels.map (fun e =>
              if e.2.createdBy = oldName then
                (e.1, { e.2 with createdBy := newName })
              else e) }
        else s
      (s', broadcastAll s'.agents (.agentRenamed senderId oldName newName))

/-- `handlePresenceUpdate`: store the (falsy-collapsed) status message and
activity timestamp, broadcast `status_changed` to everyone else. -/
def handlePresenceUpdate (s : BrokerState) (senderId : String)
    (sender : AgentInfo) (statusMessage : Option String)
    (lastActivityAt : String) : BrokerState × List Send :=
  let stored := match statusMessage with
    | some m => if m = "" then none else some m
    | none => none
  let sender' := { sender with statusMessage := stored,
                               lastActivityAt := some lastActivityAt }
  let s' : BrokerState := { s with agents := alSet s.agents senderId sender' }
  (s', broadcastExcept s'.agents senderId
        (.statusChanged senderId sender.name sender.status statusMessage
          (some lastActivityAt)))

/-- `handleStatusUpdate`. -/
def handleStatusUpdate (s : BrokerState) (senderId : String)
    (sender : AgentInfo) (status : String) : BrokerState × List Send :=
  let sender' := { sender with status := status }
  let s' : BrokerState := { s with agents := alSet s.agents senderId sender' }
  (s', broadcastExcept s'.agents senderId
        (.statusChanged senderId sender.name status sender.statusMessage
          sender.lastActivityAt))

-- ── Dispatch (handleMessage, lines 794-852) ────────────────────────────

/-- `handleMessage`: drop the message when the sender is not registered,
else dispatch on the tag.  A `register` tag reaching this switch matches
no case and is ignored. -/
def handleMessage (s : BrokerState) (senderId : String)
    (msg : ClientMessage) : BrokerState × List Send :=
  match alGet s.agents senderId with
  | none => (s, [])
  | some sender =>
    match msg with
    | .register _ => (s, [])
    | .dm t content cid => handleDm s senderId sender t content cid
    | .dmResponse t cid content => handleDmResponse s senderId sender t cid content
    | .broadcast content => handleBroadcast s senderId sender content
    | .channelCreate ch => handleChannelCreate s senderId sender ch
    | .channelJoin ch => handleChannelJoin s senderId sender ch
    | .channelLeave ch => handleChannelLeave s senderId sender ch
    | .channelSend ch content => handleChannelSend s senderId sender ch content
    | .listAgents => (s, [(senderId, .agentList (getAgents s))])
    | .listChannels => (s, [(senderId, .channelList (getChannelInfos s))])
    | .reserve paths reason => handleReserve s senderId paths reason
    | .release paths => handleRelease s senderId paths
    | .rename name => handleRename s senderId sender name
    | .presenceUpdate sm la => handlePresenceUpdate s senderId sender sm la
    | .statusUpdate st => handleStatusUpdate s senderId sender st
    | .heartbeat => (s, [(senderId, .heartbeatAck)])

-- ── Operations and reachability ────────────────────────────────────────

/-- One externally triggered broker transition: a `register` record on a
connection, any other client record from a registered sender, or a
disconnect (transport close, reaper, or administrative eviction). -/
inductive Op where
  | register (now : String) (m : RegisterMsg)
  | message (senderId : String) (m : ClientMessage)
  | disconnect (id : String)
deriving DecidableEq

/-- Apply one operation. -/
def applyOp (s : BrokerState) (op : Op) : BrokerState × List Send :=
  match op with
  | .register now m => handleRegister s now m
  | .message senderId m => handleMessage s senderId m
  | .disconnect id => handleDisconnect s id

/-- The state after one operation. -/
def stepOp (s : BrokerState) (op : Op) : BrokerState :=
  (applyOp s op).1

/-- The state after a whole run of operations. -/
def runOps (s : BrokerState) (ops : List Op) : BrokerState :=
  ops.foldl stepOp s

-- ── Inbox (Inbox.onAgentEnd / extractLastAssistantText) ────────────────

/-- One content part of a conversation-log message.  `text` is `none` when
the field is absent (JS `undefined`). -/
structure MsgPart where
  type : String
  text : Option String
deriving DecidableEq

/-- One conversation-log message.  `content` is `none` when the field is
absent or null; an empty parts array is `some []` (truthy in JS). -/
structure ConvMessage where
  role : String
  content : Option (List MsgPart)
deriving DecidableEq

/-- The inner test of `extractLastAssistantText`:
`part.type === "text" && part.text && part.text.trim()` — yields the raw
(untrimmed) text of the part when it passes. -/
def partText (part : MsgPart) : Option String :=
  if part.type = "text" then
    match part.text with
    | some t => if t ≠ "" ∧ jsTrim t ≠ "" then some t else none
    | none => none
  else none

/-- `extractLastAssistantText`: walk messages backwards; for each
assistant message with a content array, walk its parts backwards and
return the first part that passes `partText`; `""` when nothing does. -/
def extractLastAssistantText (messages : List ConvMessage) : String :=
  match messages.reverse.findSome? (fun m =>
    if m.role = "assistant" then
      match m.content with
      | some parts => parts.reverse.findSome? partText
      | none => none
    else none) with
  | some t => t
  | none => ""

/-- A recorded correlated-DM reply obligation (`Inbox.pendingReply`). -/
structure PendingReply where
  agentName : String
  correlationId : String
deriving DecidableEq

/-- The fallback reply text of `Inbox.onAgentEnd`. -/
def fallbackReply : String := "(agent processing — no text response produced)"

/-- `Inbox.onAgentEnd`, restricted to its observable output: when a
pending reply is recorded, send one `dm_response` to the recorded sender
with the recorded correlation id, carrying the trimmed extracted text or
the fallback literal; the pending reply is cleared either way. -/
def onAgentEnd (pending : Option PendingReply)
    (messages : List ConvMessage) : Option PendingReply × List ClientMessage :=
  match pending with
  | some pr =>
    let response := extractLastAssistantText messages
    let trimmed := jsTrim response
    (none, [.dmResponse pr.agentName pr.correlationId
              (if trimmed = "" then fallbackReply else trimmed)])
  | none => (none, [])

-- ── Specification-side predicates ──────────────────────────────────────

/-- Number of occurrences of one exact send in a send list. -/
def sendCount (sends : List Send) (t : Send) : Nat :=
  sends.countP (fun e => decide (e = t))

/-- Claim C1's invariant: between entries of different agents in the
reservation table, no two paths overlap (and the table is a proper map). -/
def ReservationsOk (s : BrokerState) : Prop :=
  NodupKeys s.reservations ∧
  ∀ e₁ ∈ s.reservations, ∀ e₂ ∈ s.reservations, e₁.1 ≠ e₂.1 →
    ∀ p ∈ e₁.2.paths, ∀ q ∈ e₂.2.paths, reservationPathsOverlap p q = false

/-- Internal strengthening of the name-map invariant used for induction:
both maps are proper maps, every name-map entry points at a registered
agent carrying that name, and every registered agent's name maps back to
its id. -/
def NamesOk (s : BrokerState) : Prop :=
  NodupKeys s.agents ∧ NodupKeys s.nameToId ∧
  (∀ e ∈ s.nameToId, ∃ a, alGet s.agents e.2 = some a ∧ a.name = e.1) ∧
  (∀ e ∈ s.agents, alGet s.nameToId e.2.name = some e.1) ∧
  alGet s.agents "" = none

/-- Claim C2's property as stated: each registered agent's current display
name maps to exactly its id, distinct registered agents have distinct
names, and no name-map entry carries an id absent from the registry. -/
def NameMapBijection (s : BrokerState) : Prop :=
  (∀ e ∈ s.agents, alGet s.nameToId e.2.name = some e.1) ∧
  (∀ e₁ ∈ s.agents, ∀ e₂ ∈ s.agents, e₁.1 ≠ e₂.1 → e₁.2.name ≠ e₂.2.name) ∧
  (∀ e ∈ s.nameToId, (alGet s.agents e.2).isSome = true)

/-- Whether along a run every `register` arrives with a non-empty id that
is not currently registered (the id-uniqueness and opaque-token
assumptions of §3; the empty string is falsy in the source's id guards). -/
def freshRegs : BrokerState → List Op → Bool
  | _, [] => true
  | s, op :: rest =>
    (match op with
     | .register _ m => !alHas s.agents m.id && decide (m.id ≠ "")
     | _ => true) && freshRegs (stepOp s op) rest

/-- A content part that counts as a non-empty text block: a `"text"` part
whose text is present and non-empty after trimming. -/
def NonEmptyTextPart (p : MsgPart) : Prop :=
  p.type = "text" ∧ ∃ t, p.text = some t ∧ jsTrim t ≠ ""

/-- Value of a little-endian decimal digit list. -/
def valOfDigits : List Nat → Nat
  | [] => 0
  | d :: ds => d + 10 * valOfDigits ds

-- ── Concrete fixtures used by witnesses and counterexamples ────────────

/-- A concrete registered agent used in concrete runs. -/
def agentA : AgentInfo :=
  ⟨"A", "a", "worker", none, "/", "idle", [], true, none, none⟩

/-- A second concrete registered agent. -/
def agentB : AgentInfo :=
  ⟨"B", "b", "worker", none, "/", "idle", [], true, none, none⟩

/-- A broker state with agents `A` and `B` registered and nothing else. -/
def c6State : BrokerState :=
  ⟨[("A", agentA), ("B", agentB)], [("a", "A"), ("b", "B")], [], []⟩

/-- A broker state in which agent `A` already holds a reservation on
`"p"`. -/
def c5Prior : BrokerState :=
  ⟨[("A", agentA)], [("a", "A")], [], [("A", ⟨["p"], none⟩)]⟩

/-- A broker state with agent `A` registered and no reservations. -/
def c5Init : BrokerState :=
  ⟨[("A", agentA)], [("a", "A")], [], []⟩

/-- A broker state in which agent `A` holds a directory reservation. -/
def c9State : BrokerState :=
  ⟨[("A", agentA)], [("a", "A")], [], [("A", ⟨["src/dir/"], none⟩)]⟩

-- ── Association-list lemmas ────────────────────────────────────────────

theorem alGet_mem {α : Type} {m : List (String × α)} {k : String} {v : α}
    (h : alGet m k = some v) : (k, v) ∈ m := by
  induction m with
  | nil => simp [alGet] at h
  | cons e rest ih =>
    obtain ⟨k', v'⟩ := e
    by_cases hk : k' = k
    · subst hk
      simp [alGet] at h
      simp [h]
    · simp [alGet, hk] at h
      exact List.mem_cons_of_mem _ (ih h)

theorem mem_keys_of_alGet {α : Type} {m : List (String × α)} {k : String}
    {v : α} (h : alGet m k = some v) : k ∈ alKeys m := by
  have := alGet_mem h
  exact List.mem_map.mpr ⟨(k, v), this, rfl⟩

theorem alGet_eq_none_iff {α : Type} {m : List (String × α)} {k : String} :
    alGet m k = none ↔ k ∉ alKeys m := by
  induction m with
  | nil => simp [alGet, alKeys]
  | cons e rest ih =>
    obtain ⟨k', v'⟩ := e
    by_cases hk : k' = k
    · subst hk
      simp [alGet, alKeys]
    · simp [alGet, alKeys, hk, ih, Ne.symm hk]

theorem alGet_of_mem {α : Type} {m : List (String × α)} {k : String}
    {v : α} (hd : NodupKeys m) (h : (k, v) ∈ m) : alGet m k = some v := by
  induction m with
  | nil => simp at h
  | cons e rest ih =>
    obtain ⟨k', v'⟩ := e
    simp only [NodupKeys, alKeys, List.map_cons, List.nodup_cons] at hd
    rcases List.mem_cons.mp h with h1 | h1
    · rw [Prod.mk.injEq] at h1
      simp [alGet, h1.1.symm, h1.2]
    · by_cases hk : k' = k
      · exfalso
        subst hk
        exact hd.1 (List.mem_map.mpr ⟨(k', v), h1, rfl⟩)
      · simp only [alGet, if_neg hk]
        exact ih hd.2 h1

theorem alGet_alSet_self {α : Type} (m : List (String × α)) (k : String)
    (v : α) : alGet (alSet m k v) k = some v := by
  induction m with
  | nil => simp [alSet, alGet]
  | cons e rest ih =>
    obtain ⟨k', v'⟩ := e
    by_cases hk : k' = k
    · simp [alSet, alGet, hk]
    · simp [alSet, alGet, hk, ih]

theorem alGet_alSet_ne {α : Type} (m : List (String × α)) {k k' : String}
    (v : α) (h : k' ≠ k) : alGet (alSet m k v) k' = alGet m k' := by
  induction m with
  | nil => simp [alSet, alGet, Ne.symm h]
  | cons e rest ih =>
    obtain ⟨k₀, v₀⟩ := e
    by_cases hk : k₀ = k
    · subst hk
      simp [alSet, alGet, Ne.symm h]
    · simp [alSet, alGet, hk, ih]

theorem alGet_alDelete_self {α : Type} (m : List (String × α))
    (k : String) : alGet (alDelete m k) k = none := by
  induction m with
  | nil => simp [alDelete, alGet]
  | cons e rest ih =>
    obtain ⟨k', v'⟩ := e
    by_cases hk : k' = k
    · simp [alDelete, hk, ih]
    · simp [alDelete, alGet, hk, ih]

theorem alGet_alDelete_ne {α : Type} (m : List (String × α))
    {k k' : String} (h : k' ≠ k) : alGet (alDelete m k) k' = alGet m k' := by
  induction m with
  | nil => simp [alDelete]
  | cons e rest ih =>
    obtain ⟨k₀, v₀⟩ := e
    by_cases hk : k₀ = k
    · subst hk
      simp [alDelete, alGet, Ne.symm h, ih]
    · simp [alDelete, alGet, hk, ih]

theorem alKeys_alSet_of_mem {α : Type} {m : List (String × α)}
    {k : String} (v : α) (h : k ∈ alKeys m) :
    alKeys (alSet m k v) = alKeys m := by
  induction m with
  | nil => simp [alKeys] at h
  | cons e rest ih =>
    obtain ⟨k', v'⟩ := e
    by_cases hk : k' = k
    · simp [alSet, alKeys, hk]
    · simp only [alKeys, List.map_cons, List.mem_cons] at h ih
      rcases h with h | h
      · exact absurd h.symm hk
      · simp [alSet, alKeys, hk, ih h]

theorem alKeys_alSet_of_not_mem {α : Type} {m : List (String × α)}
    {k : String} (v : α) (h : k ∉ alKeys m) :
    alKeys (alSet m k v) = alKeys m ++ [k] := by
  induction m with
  | nil => simp [alSet, alKeys]
  | cons e rest ih =>
    obtain ⟨k', v'⟩ := e
    simp only [alKeys, List.map_cons, List.mem_cons] at h ih
    push_neg at h
    simp [alSet, alKeys, Ne.symm h.1, ih h.2]

theorem nodupKeys_alSet {α : Type} {m : List (String × α)} {k : String}
    (v : α) (hd : NodupKeys m) : NodupKeys (alSet m k v) := by
  unfold NodupKeys at hd ⊢
  by_cases h : k ∈ alKeys m
  · rw [alKeys_alSet_of_mem v h]
    exact hd
  · rw [alKeys_alSet_of_not_mem v h]
    simp [List.nodup_append, hd, h]

theorem mem_alDelete {α : Type} {m : List (String × α)} {k : String}
    {x : String × α} (h : x ∈ alDelete m k) : x ∈ m ∧ x.1 ≠ k := by
  induction m with
  | nil => simp [alDelete] at h
  | cons e rest ih =>
    obtain ⟨k', v'⟩ := e
    by_cases hk : k' = k
    · simp only [alDelete, if_pos hk] at h
      exact ⟨List.mem_cons_of_mem _ (ih h).1, (ih h).2⟩
    · simp only [alDelete, if_neg hk, List.mem_cons] at h
      rcases h with h | h
      · subst h
        exact ⟨List.mem_cons_self .., hk⟩
      · exact ⟨List.mem_cons_of_mem _ (ih h).1, (ih h).2⟩

theorem alDelete_sublist {α : Type} (m : List (String × α)) (k : String) :
    List.Sublist (alDelete m k) m := by
  induction m with
  | nil => simp [alDelete]
  | cons e rest ih =>
    obtain ⟨k', v'⟩ := e
    by_cases hk : k' = k
    · simpa [alDelete, hk] using List.Sublist.cons (k', v') ih
    · simpa [alDelete, hk] using List.Sublist.cons₂ (k', v') ih

theorem nodupKeys_alDelete {α : Type} {m : List (String × α)}
    (k : String) (hd : NodupKeys m) : NodupKeys (alDelete m k) := by
  unfold NodupKeys at hd ⊢
  exact hd.sublist ((alDelete_sublist m k).map _)

theorem alDelete_of_not_mem {α : Type} {m : List (String × α)}
    {k : String} (h : k ∉ alKeys m) : alDelete m k = m := by
  induction m with
  | nil => simp [alDelete]
  | cons e rest ih =>
    obtain ⟨k', v'⟩ := e
    simp only [alKeys, List.map_cons, List.mem_cons] at h ih
    push_neg at h
    simp [alDelete, Ne.symm h.1, ih h.2]

theorem alDelete_alSet_not_mem {α : Type} {m : List (String × α)}
    {k : String} (v : α) (h : k ∉ alKeys m) :
    alDelete (alSet m k v) k = m := by
  induction m with
  | nil => simp [alSet, alDelete]
  | cons e rest ih =>
    obtain ⟨k', v'⟩ := e
    simp only [alKeys, List.map_cons, List.mem_cons] at h ih
    push_neg at h
    simp [alSet, alDelete, Ne.symm h.1, ih h.2]

theorem alSet_self_of_alGet {α : Type} {m : List (String × α)}
    {k : String} {v : α} (h : alGet m k = some v) : alSet m k v = m := by
  induction m with
  | nil => simp [alGet] at h
  | cons e rest ih =>
    obtain ⟨k', v'⟩ := e
    by_cases hk : k' = k
    · subst hk
      simp [alGet] at h
      simp [alSet, h]
    · simp only [alGet, if_neg hk] at h
      simp [alSet, hk, ih h]

theorem mem_alSet {α : Type} {m : List (String × α)} {k : String} {v : α}
    {x : String × α} (hd : NodupKeys m) (h : x ∈ alSet m k v) :
    x = (k, v) ∨ (x ∈ m ∧ x.1 ≠ k) := by
  induction m with
  | nil =>
    simp only [alSet, List.mem_singleton] at h
    exact Or.inl h
  | cons e rest ih =>
    obtain ⟨k', v'⟩ := e
    simp only [NodupKeys, alKeys, List.map_cons, List.nodup_cons] at hd
    by_cases hk : k' = k
    · rw [show alSet ((k', v') :: rest) k v = (k, v) :: rest from by
        simp [alSet, hk]] at h
      rcases List.mem_cons.mp h with h2 | h2
      · exact Or.inl h2
      · refine Or.inr ⟨List.mem_cons_of_mem _ h2, ?_⟩
        intro hx
        exact hd.1 (List.mem_map.mpr ⟨x, h2, hk ▸ hx⟩)
    · rw [show alSet ((k', v') :: rest) k v = (k', v') :: alSet rest k v from by
        simp [alSet, hk]] at h
      rcases List.mem_cons.mp h with h2 | h2
      · subst h2
        exact Or.inr ⟨List.mem_cons_self .., hk⟩
      · rcases ih hd.2 h2 with h1 | h1
        · exact Or.inl h1
        · exact Or.inr ⟨List.mem_cons_of_mem _ h1.1, h1.2⟩

-- ── Dedupe lemmas ──────────────────────────────────────────────────────

theorem mem_dedupeGo {l : List String} {x : String} :
    ∀ {seen : List String}, x ∈ dedupeGo l seen ↔ x ∈ l ∧ x ∉ seen := by
  induction l with
  | nil => simp [dedupeGo]
  | cons p rest ih =>
    intro seen
    by_cases hp : p ∈ seen
    · rw [show dedupeGo (p :: rest) seen = dedupeGo rest seen from by
        simp [dedupeGo, hp]]
      rw [ih]
      constructor
      · rintro ⟨h1, h2⟩
        exact ⟨List.mem_cons_of_mem _ h1, h2⟩
      · rintro ⟨h1, h2⟩
        rcases List.mem_cons.mp h1 with h3 | h3
        · exact absurd (h3 ▸ hp) h2
        · exact ⟨h3, h2⟩
    · rw [show dedupeGo (p :: rest) seen = p :: dedupeGo rest (p :: seen) from by
        simp [dedupeGo, hp]]
      constructor
      · intro h
        rcases List.mem_cons.mp h with h3 | h3
        · exact ⟨h3 ▸ List.mem_cons_self .., h3 ▸ hp⟩
        · obtain ⟨h4, h5⟩ := ih.mp h3
          simp only [List.mem_cons] at h5
          push_neg at h5
          exact ⟨List.mem_cons_of_mem _ h4, h5.2⟩
      · rintro ⟨h1, h2⟩
        rcases List.mem_cons.mp h1 with h3 | h3
        · exact h3 ▸ List.mem_cons_self ..
        · by_cases hxp : x = p
          · exact hxp ▸ List.mem_cons_self ..
          · refine List.mem_cons_of_mem _ (ih.mpr ⟨h3, ?_⟩)
            simp [hxp, h2]

theorem mem_dedupePaths {l : List String} {x : String} :
    x ∈ dedupePaths l ↔ x ∈ l := by
  unfold dedupePaths
  rw [mem_dedupeGo]
  simp

theorem nodup_dedupeGo (l : List String) :
    ∀ seen : List String, (dedupeGo l seen).Nodup := by
  induction l with
  | nil =>
    intro seen
    simp [dedupeGo]
  | cons p rest ih =>
    intro seen
    by_cases hp : p ∈ seen
    · rw [show dedupeGo (p :: rest) seen = dedupeGo rest seen from by
        simp [dedupeGo, hp]]
      exact ih seen
    · rw [show dedupeGo (p :: rest) seen = p :: dedupeGo rest (p :: seen) from by
        simp [dedupeGo, hp]]
      refine List.nodup_cons.mpr ⟨?_, ih (p :: seen)⟩
      intro hmem
      exact (mem_dedupeGo.mp hmem).2 (List.mem_cons_self ..)

theorem nodup_dedupePaths (l : List String) : (dedupePaths l).Nodup :=
  nodup_dedupeGo l []

theorem dedupeGo_eq_self {l : List String} (hl : l.Nodup) :
    ∀ {seen : List String}, (∀ x ∈ l, x ∉ seen) → dedupeGo l seen = l := by
  induction l with
  | nil =>
    intro seen _
    simp [dedupeGo]
  | cons p rest ihl =>
    intro seen hs
    have hp : p ∉ seen := hs p (List.mem_cons_self ..)
    rw [show dedupeGo (p :: rest) seen = p :: dedupeGo rest (p :: seen) from by
      simp [dedupeGo, hp]]
    have hrest : rest.Nodup := (List.nodup_cons.mp hl).2
    have hpr : p ∉ rest := (List.nodup_cons.mp hl).1
    congr 1
    refine ihl hrest ?_
    intro x hx
    simp only [List.mem_cons]
    push_neg
    exact ⟨fun hxp => hpr (hxp ▸ hx), hs x (List.mem_cons_of_mem _ hx)⟩

theorem dedupePaths_eq_self {l : List String} (hl : l.Nodup) :
    dedupePaths l = l :=
  dedupeGo_eq_self hl (by simp)

-- ── Overlap symmetry ───────────────────────────────────────────────────

theorem reservationPathsOverlap_symm (a b : String) :
    reservationPathsOverlap a b = reservationPathsOverlap b a := by
  unfold reservationPathsOverlap
  by_cases hab : a = b
  · simp [hab]
  · have hba : ¬ b = a := fun hh => hab hh.symm
    rw [if_neg hab, if_neg hba]
    cases h1 : (endsWithChar a '/' && (strStartsWith b a || b == strDropLast a)) <;>
      cases h2 : (endsWithChar b '/' && (strStartsWith a b || a == strDropLast b)) <;>
      simp [h1, h2]

-- ── Decimal-string lemmas ──────────────────────────────────────────────

theorem digitsRevFuel_eq (n : Nat) :
    ∀ f, n ≤ f → digitsRevFuel f n = digitsRev n := by
  induction n using Nat.strong_induction_on with
  | _ n ih =>
    intro f hf
    match n, f with
    | 0, f => cases f <;> rfl
    | m + 1, g + 1 =>
      have hq : (m + 1) / 10 < m + 1 := Nat.div_lt_self (Nat.succ_pos m) (by norm_num)
      have h1 : digitsRevFuel (g + 1) (m + 1) =
          ((m + 1) % 10) :: digitsRevFuel g ((m + 1) / 10) := rfl
      have h2 : digitsRev (m + 1) =
          ((m + 1) % 10) :: digitsRevFuel m ((m + 1) / 10) := rfl
      rw [h1, h2]
      congr 1
      rw [ih _ hq g (by omega), ih _ hq m (by omega)]

theorem digitsRev_succ (m : Nat) :
    digitsRev (m + 1) = ((m + 1) % 10) :: digitsRev ((m + 1) / 10) := by
  have hq : (m + 1) / 10 < m + 1 := Nat.div_lt_self (Nat.succ_pos m) (by norm_num)
  have h2 : digitsRev (m + 1) =
      ((m + 1) % 10) :: digitsRevFuel m ((m + 1) / 10) := rfl
  rw [h2, digitsRevFuel_eq _ m (by omega)]

theorem valOf_digitsRev (n : Nat) : valOfDigits (digitsRev n) = n := by
  induction n using Nat.strong_induction_on with
  | _ n ih =>
    match n with
    | 0 => rfl
    | m + 1 =>
      have hq : (m + 1) / 10 < m + 1 := Nat.div_lt_self (Nat.succ_pos m) (by norm_num)
      rw [digitsRev_succ, valOfDigits, ih _ hq]
      omega

theorem digitsRev_lt_ten (n : Nat) : ∀ d ∈ digitsRev n, d < 10 := by
  induction n using Nat.strong_induction_on with
  | _ n ih =>
    match n with
    | 0 =>
      intro d hd
      simp [digitsRev, digitsRevFuel] at hd
    | m + 1 =>
      intro d hd
      rw [digitsRev_succ] at hd
      have hq : (m + 1) / 10 < m + 1 := Nat.div_lt_self (Nat.succ_pos m) (by norm_num)
      rcases List.mem_cons.mp hd with h | h
      · omega
      · exact ih _ hq d h

theorem digitsRev_inj {a b : Nat} (h : digitsRev a = digitsRev b) : a = b := by
  have := valOf_digitsRev a
  rw [h, valOf_digitsRev] at this
  omega

theorem digitChar_inj_lt :
    ∀ a, a < 10 → ∀ b, b < 10 → Nat.digitChar a = Nat.digitChar b → a = b := by
  decide

theorem map_digitChar_inj :
    ∀ {l₁ l₂ : List Nat}, (∀ d ∈ l₁, d < 10) → (∀ d ∈ l₂, d < 10) →
      l₁.map Nat.digitChar = l₂.map Nat.digitChar → l₁ = l₂ := by
  intro l₁
  induction l₁ with
  | nil =>
    intro l₂ _ _ h
    cases l₂ with
    | nil => rfl
    | cons d ds => simp at h
  | cons d ds ih =>
    intro l₂ h₁ h₂ h
    cases l₂ with
    | nil => simp at h
    | cons e es =>
      simp only [List.map_cons, List.cons.injEq] at h
      have hd : d = e :=
        digitChar_inj_lt d (h₁ d (List.mem_cons_self ..))
          e (h₂ e (List.mem_cons_self ..)) h.1
      have ht : ds = es :=
        ih (fun x hx => h₁ x (List.mem_cons_of_mem _ hx))
          (fun x hx => h₂ x (List.mem_cons_of_mem _ hx)) h.2
      rw [hd, ht]

theorem natToString_inj {a b : Nat} (h : natToString a = natToString b) :
    a = b := by
  unfold natToString at h
  by_cases ha : a = 0 <;> by_cases hb : b = 0
  · omega
  · exfalso
    rw [if_pos ha, if_neg hb] at h
    have hdata : ("0" : String).data = (digitsRev b).reverse.map Nat.digitChar := by
      rw [h]
    have : (digitsRev b).reverse.map Nat.digitChar = ['0'] := hdata.symm
    have hrev : (digitsRev b).reverse = [0] := by
      refine map_digitChar_inj ?_ ?_ ?_
      · intro d hd
        exact digitsRev_lt_ten b d (List.mem_reverse.mp hd)
      · intro d hd
        simp at hd
        omega
      · rw [this]
        rfl
    have hb0 : digitsRev b = [0] := by
      have := congrArg List.reverse hrev
      simpa using this
    have := valOf_digitsRev b
    rw [hb0] at this
    simp [valOfDigits] at this
    omega
  · exfalso
    rw [if_neg ha, if_pos hb] at h
    have hdata : (digitsRev a).reverse.map Nat.digitChar = ("0" : String).data := by
      rw [← h]
    have hrev : (digitsRev a).reverse = [0] := by
      refine map_digitChar_inj ?_ ?_ ?_
      · intro d hd
        exact digitsRev_lt_ten a d (List.mem_reverse.mp hd)
      · intro d hd
        simp at hd
        omega
      · rw [hdata]
        rfl
    have ha0 : digitsRev a = [0] := by
      have := congrArg List.reverse hrev
      simpa using this
    have := valOf_digitsRev a
    rw [ha0] at this
    simp [valOfDigits] at this
    omega
  · rw [if_neg ha, if_neg hb] at h
    have hdata : (digitsRev a).reverse.map Nat.digitChar =
        (digitsRev b).reverse.map Nat.digitChar := by
      have := congrArg String.data h
      simpa using this
    have hrev : (digitsRev a).reverse = (digitsRev b).reverse :=
      map_digitChar_inj
        (fun d hd => digitsRev_lt_ten a d (List.mem_reverse.mp hd))
        (fun d hd => digitsRev_lt_ten b d (List.mem_reverse.mp hd)) hdata
    exact digitsRev_inj (List.reverse_injective hrev)

theorem suffix_name_inj (base : String) {a b : Nat}
    (h : base ++ "-" ++ natToString a = base ++ "-" ++ natToString b) :
    a = b := by
  have hdata := congrArg String.data h
  simp only [String.data_append] at hdata
  have := List.append_cancel_left hdata
  refine natToString_inj ?_
  cases hsa : natToString a with
  | mk da =>
    cases hsb : natToString b with
    | mk db =>
      rw [hsa, hsb] at this
      have hdd : da = db := by simpa using this
      rw [hdd]

-- ── Name-suffix search lemmas ──────────────────────────────────────────

theorem findSuffix_some {taken : String → Bool} {base : String} :
    ∀ {fuel i k : Nat}, findSuffix taken base fuel i = some k →
      i ≤ k ∧ taken (base ++ "-" ++ natToString k) = false ∧
      ∀ j, i ≤ j → j < k → taken (base ++ "-" ++ natToString j) = true := by
  intro fuel
  induction fuel with
  | zero =>
    intro i k h
    simp [findSuffix] at h
  | succ fuel ih =>
    intro i k h
    rw [show findSuffix taken base (fuel + 1) i =
        (if taken (base ++ "-" ++ natToString i) then
          findSuffix taken base fuel (i + 1)
        else some i) from rfl] at h
    by_cases ht : taken (base ++ "-" ++ natToString i) = true
    · rw [if_pos ht] at h
      obtain ⟨h1, h2, h3⟩ := ih h
      refine ⟨by omega, h2, ?_⟩
      intro j hj1 hj2
      by_cases hji : j = i
      · exact hji ▸ ht
      · exact h3 j (by omega) hj2
    · rw [if_neg ht] at h
      obtain rfl : i = k := by simpa using h
      refine ⟨Nat.le_refl i, by simpa using ht, ?_⟩
      intro j hj1 hj2
      omega

theorem findSuffix_total {taken : String → Bool} {base : String} :
    ∀ {fuel i : Nat},
      (∃ j, i ≤ j ∧ j < i + fuel ∧ taken (base ++ "-" ++ natToString j) = false) →
      (findSuffix taken base fuel i).isSome = true := by
  intro fuel
  induction fuel with
  | zero =>
    rintro i ⟨j, h1, h2, _⟩
    omega
  | succ fuel ih =>
    rintro i ⟨j, h1, h2, h3⟩
    rw [show findSuffix taken base (fuel + 1) i =
        (if taken (base ++ "-" ++ natToString i) then
          findSuffix taken base fuel (i + 1)
        else some i) from rfl]
    by_cases ht : taken (base ++ "-" ++ natToString i) = true
    · rw [if_pos ht]
      refine ih ⟨j, ?_, by omega, h3⟩
      by_cases hji : j = i
      · rw [hji] at h3
        rw [h3] at ht
        exact absurd ht (by simp)
      · omega
    · rw [if_neg ht]
      rfl

theorem exists_free_key (m : List (String × String)) (base : String)
    (i : Nat) :
    ∃ j, i ≤ j ∧ j < i + (m.length + 1) ∧
      alGet m (base ++ "-" ++ natToString j) = none := by
  by_contra hcon
  push_neg at hcon
  have hmem : ∀ t : Fin (m.length + 1),
      (base ++ "-" ++ natToString (i + t.val)) ∈ alKeys m := by
    intro t
    have h1 : i ≤ i + t.val := by omega
    have h2 : i + t.val < i + (m.length + 1) := by omega
    have := hcon (i + t.val) h1 h2
    by_contra hnot
    exact this (alGet_eq_none_iff.mpr hnot)
  have hinj : Function.Injective
      (fun t : Fin (m.length + 1) => base ++ "-" ++ natToString (i + t.val)) := by
    intro t u he
    have := suffix_name_inj base he
    exact Fin.ext (by omega)
  have hsub : Finset.image
      (fun t : Fin (m.length + 1) => base ++ "-" ++ natToString (i + t.val))
      Finset.univ ⊆ (alKeys m).toFinset := by
    intro x hx
    obtain ⟨t, _, rfl⟩ := Finset.mem_image.mp hx
    exact List.mem_toFinset.mpr (hmem t)
  have hcard1 : (Finset.image
      (fun t : Fin (m.length + 1) => base ++ "-" ++ natToString (i + t.val))
      Finset.univ).card = m.length + 1 := by
    rw [Finset.card_image_of_injective _ hinj]
    simp
  have hcard2 : (alKeys m).toFinset.card ≤ m.length := by
    have := List.toFinset_card_le (alKeys m)
    simpa [alKeys] using this
  have := Finset.card_le_card hsub
  omega

theorem resolveName_free {m : List (String × String)} {base : String}
    (h : alGet m base = none) : resolveName m base = base := by
  simp [resolveName, alHas, h]

theorem resolveName_taken {m : List (String × String)} {base : String}
    {x : String} (h : alGet m base = some x) :
    ∃ k, 2 ≤ k ∧ resolveName m base = base ++ "-" ++ natToString k ∧
      alGet m (base ++ "-" ++ natToString k) = none ∧
      ∀ j, 2 ≤ j → j < k → alGet m (base ++ "-" ++ natToString j) ≠ none := by
  obtain ⟨j, hj1, hj2, hj3⟩ := exists_free_key m base 2
  have htot : (findSuffix (fun n => alHas m n) base (m.length + 1) 2).isSome = true :=
    findSuffix_total ⟨j, hj1, hj2, by simp [alHas, hj3]⟩
  obtain ⟨k, hk⟩ := Option.isSome_iff_exists.mp htot
  obtain ⟨hk1, hk2, hk3⟩ := findSuffix_some hk
  refine ⟨k, hk1, ?_, ?_, ?_⟩
  · unfold resolveName
    rw [if_pos (by simp [alHas, h]), hk]
  · cases halg : alGet m (base ++ "-" ++ natToString k) with
    | none => rfl
    | some y => simp [alHas, halg] at hk2
  · intro j' h2 h3
    have := hk3 j' h2 h3
    simp only [alHas, Option.isSome_iff_exists] at this
    obtain ⟨y, hy⟩ := this
    simp [hy]

-- ── Conflict-scan characterization ─────────────────────────────────────

theorem findConflict_eq_none
    {res : List (String × ReservationInfo)} {senderId : String}
    {normalized : List String} :
    findConflict res senderId normalized = none ↔
    ∀ t ∈ normalized, ∀ e ∈ res, e.1 ≠ senderId →
      ∀ q ∈ e.2.paths, reservationPathsOverlap t q = false := by
  unfold findConflict
  rw [List.findSome?_eq_none_iff]
  constructor
  · intro h t ht e he hne q hq
    have h1 := h t ht
    rw [List.findSome?_eq_none_iff] at h1
    have h2 := h1 e he
    rw [if_neg hne] at h2
    by_cases hov : reservationPathsOverlap t q = true
    · exfalso
      have hany : e.2.paths.any (fun rp => reservationPathsOverlap t rp) = true :=
        List.any_eq_true.mpr ⟨q, hq, hov⟩
      rw [if_pos hany] at h2
      simp at h2
    · simpa using hov
  · intro h t ht
    rw [List.findSome?_eq_none_iff]
    intro e he
    by_cases hne : e.1 = senderId
    · rw [if_pos hne]
    · rw [if_neg hne]
      by_cases hany : e.2.paths.any (fun rp => reservationPathsOverlap t rp) = true
      · exfalso
        obtain ⟨q, hq, hov⟩ := List.any_eq_true.mp hany
        have := h t ht e he hne q hq
        rw [this] at hov
        exact absurd hov (by simp)
      · rw [if_neg hany]

-- ── C1: cross-agent reservation disjointness is invariant ──────────────

theorem reservationsOk_congr {s s' : BrokerState}
    (h : s'.reservations = s.reservations) (hok : ReservationsOk s) :
    ReservationsOk s' := by
  unfold ReservationsOk at hok ⊢
  rw [h]
  exact hok

theorem reservations_handleRegister (s : BrokerState) (now : String)
    (m : RegisterMsg) : (handleRegister s now m).1.reservations = s.reservations := rfl

theorem reservations_handleDm (s : BrokerState) (sid : String)
    (sender : AgentInfo) (t c : String) (cid : Option String) :
    (handleDm s sid sender t c cid).1.reservations = s.reservations := by
  unfold handleDm
  repeat' split
  all_goals rfl

theorem reservations_handleDmResponse (s : BrokerState) (sid : String)
    (sender : AgentInfo) (t cid c : String) :
    (handleDmResponse s sid sender t cid c).1.reservations = s.reservations := by
  unfold handleDmResponse
  repeat' split
  all_goals rfl

theorem reservations_handleBroadcast (s : BrokerState) (sid : String)
    (sender : AgentInfo) (c : String) :
    (handleBroadcast s sid sender c).1.reservations = s.reservations := rfl

theorem reservations_handleChannelCreate (s : BrokerState) (sid : String)
    (sender : AgentInfo) (ch : String) :
    (handleChannelCreate s sid sender ch).1.reservations = s.reservations := by
  unfold handleChannelCreate
  repeat' split
  all_goals rfl

theorem reservations_handleChannelJoin (s : BrokerState) (sid : String)
    (sender : AgentInfo) (ch : String) :
    (handleChannelJoin s sid sender ch).1.reservations = s.reservations := by
  unfold handleChannelJoin
  repeat' split
  all_goals rfl

theorem reservations_handleChannelLeave (s : BrokerState) (sid : String)
    (sender : AgentInfo) (ch : String) :
    (handleChannelLeave s sid sender ch).1.reservations = s.reservations := by
  unfold handleChannelLeave
  repeat' split
  all_goals rfl

theorem reservations_handleChannelSend (s : BrokerState) (sid : String)
    (sender : AgentInfo) (ch c : String) :
    (handleChannelSend s sid sender ch c).1.reservations = s.reservations := by
  unfold handleChannelSend
  repeat' split
  all_goals rfl

theorem reservations_handleRename (s : BrokerState) (sid : String)
    (sender : AgentInfo) (n : String) :
    (handleRename s sid sender n).1.reservations = s.reservations := by
  unfold handleRename
  simp only []
  repeat' split
  all_goals rfl

theorem reservations_handlePresenceUpdate (s : BrokerState) (sid : String)
    (sender : AgentInfo) (sm : Option String) (la : String) :
    (handlePresenceUpdate s sid sender sm la).1.reservations = s.reservations := rfl

theorem reservations_handleStatusUpdate (s : BrokerState) (sid : String)
    (sender : AgentInfo) (st : String) :
    (handleStatusUpdate s sid sender st).1.reservations = s.reservations := rfl

theorem reservationsOk_handleReserve {s : BrokerState} {senderId : String}
    {paths : List String} {reason : Option String}
    (hok : ReservationsOk s) :
    ReservationsOk (handleReserve s senderId paths reason).1 := by
  unfold handleReserve
  simp only []
  split
  · exact hok
  · split
    · exact hok
    · next hconf =>
      refine ⟨nodupKeys_alSet _ hok.1, ?_⟩
      intro e₁ he₁ e₂ he₂ hne p hp q hq
      have hspec := findConflict_eq_none.mp hconf
      have hold : ∀ pp, pp ∈ (match alGet s.reservations senderId with
          | some e => e.paths
          | none => []) → ∃ ex, alGet s.reservations senderId = some ex ∧ pp ∈ ex.paths := by
        intro pp hpp
        cases hex : alGet s.reservations senderId with
        | none => rw [hex] at hpp; simp at hpp
        | some ex => rw [hex] at hpp; exact ⟨ex, rfl, hpp⟩
      have hmerged : ∀ pp, pp ∈ dedupePaths ((match alGet s.reservations senderId with
          | some e => e.paths
          | none => []) ++ dedupePaths ((paths.map normalizeReservationPath).filter (fun p => p ≠ ""))) →
          (∃ ex, alGet s.reservations senderId = some ex ∧ pp ∈ ex.paths) ∨
          pp ∈ dedupePaths ((paths.map normalizeReservationPath).filter (fun p => p ≠ "")) := by
        intro pp hpp
        rcases List.mem_append.mp (mem_dedupePaths.mp hpp) with hh | hh
        · exact Or.inl (hold pp hh)
        · exact Or.inr hh
      rcases mem_alSet hok.1 he₁ with h1 | h1 <;> rcases mem_alSet hok.1 he₂ with h2 | h2
      · exfalso
        rw [h1, h2] at hne
        exact hne rfl
      · subst h1
        rcases hmerged p hp with ⟨ex, hex, hpex⟩ | hpn
        · exact hok.2 (senderId, ex) (alGet_mem hex) e₂ h2.1
            (by simpa using h2.2.symm) p hpex q hq
        · exact hspec p hpn e₂ h2.1 h2.2 q hq
      · subst h2
        rcases hmerged q hq with ⟨ex, hex, hqex⟩ | hqn
        · exact hok.2 e₁ h1.1 (senderId, ex) (alGet_mem hex) (by simpa using h1.2) p hp q hqex
        · rw [reservationPathsOverlap_symm]
          exact hspec q hqn e₁ h1.1 (by simpa using h1.2) p hp
      · exact hok.2 e₁ h1.1 e₂ h2.1 hne p hp q hq

theorem reservationsOk_alDelete {s : BrokerState} {x : String}
    (hok : ReservationsOk s) :
    NodupKeys (alDelete s.reservations x) ∧
    ∀ e₁ ∈ alDelete s.reservations x, ∀ e₂ ∈ alDelete s.reservations x,
      e₁.1 ≠ e₂.1 → ∀ p ∈ e₁.2.paths, ∀ q ∈ e₂.2.paths,
        reservationPathsOverlap p q = false := by
  refine ⟨nodupKeys_alDelete _ hok.1, ?_⟩
  intro e₁ he₁ e₂ he₂ hne p hp q hq
  exact hok.2 e₁ (mem_alDelete he₁).1 e₂ (mem_alDelete he₂).1 hne p hp q hq

theorem reservationsOk_handleRelease {s : BrokerState} {senderId : String}
    {paths : Option (List String)} (hok : ReservationsOk s) :
    ReservationsOk (handleRelease s senderId paths).1 := by
  rcases hex : alGet s.reservations senderId with _ | existing
  · simp only [handleRelease, hex]
    exact hok
  · simp only [handleRelease, hex]
    by_cases hemp : (match paths with
        | none => true
        | some ps => ps.isEmpty) = true
    · rw [if_pos hemp]
      exact reservationsOk_alDelete hok
    · rw [if_neg hemp]
      split
      · exact reservationsOk_alDelete hok
      · refine ⟨nodupKeys_alSet _ hok.1, ?_⟩
        intro e₁ he₁ e₂ he₂ hne p hp q hq
        have hexm : (senderId, existing) ∈ s.reservations := alGet_mem hex
        rcases mem_alSet hok.1 he₁ with h1 | h1 <;> rcases mem_alSet hok.1 he₂ with h2 | h2
        · exfalso
          rw [h1, h2] at hne
          exact hne rfl
        · subst h1
          have hp' : p ∈ existing.paths := by
            have := hp
            simp only [List.mem_filter] at this
            exact this.1
          exact hok.2 (senderId, existing) hexm e₂ h2.1
            (by simpa using h2.2.symm) p hp' q hq
        · subst h2
          have hq' : q ∈ existing.paths := by
            have := hq
            simp only [List.mem_filter] at this
            exact this.1
          exact hok.2 e₁ h1.1 (senderId, existing) hexm
            (by simpa using h1.2) p hp q hq'
        · exact hok.2 e₁ h1.1 e₂ h2.1 hne p hp q hq

theorem reservationsOk_handleDisconnect {s : BrokerState} {agentId : String}
    (hok : ReservationsOk s) :
    ReservationsOk (handleDisconnect s agentId).1 := by
  unfold handleDisconnect
  split
  · exact hok
  · exact reservationsOk_alDelete hok

theorem reservationsOk_step {s : BrokerState} (op : Op)
    (hok : ReservationsOk s) : ReservationsOk (stepOp s op) := by
  cases op with
  | register now m =>
    exact reservationsOk_congr (reservations_handleRegister s now m) hok
  | disconnect id =>
    exact reservationsOk_handleDisconnect hok
  | message sid msg =>
    show ReservationsOk (handleMessage s sid msg).1
    unfold handleMessage
    cases halg : alGet s.agents sid with
    | none => exact hok
    | some sender =>
      cases msg with
      | register m => exact hok
      | dm t c cid =>
        exact reservationsOk_congr (reservations_handleDm s sid sender t c cid) hok
      | dmResponse t cid c =>
        exact reservationsOk_congr (reservations_handleDmResponse s sid sender t cid c) hok
      | broadcast c =>
        exact reservationsOk_congr (reservations_handleBroadcast s sid sender c) hok
      | channelCreate ch =>
        exact reservationsOk_congr (reservations_handleChannelCreate s sid sender ch) hok
      | channelJoin ch =>
        exact reservationsOk_congr (reservations_handleChannelJoin s sid sender ch) hok
      | channelLeave ch =>
        exact reservationsOk_congr (reservations_handleChannelLeave s sid sender ch) hok
      | channelSend ch c =>
        exact reservationsOk_congr (reservations_handleChannelSend s sid sender ch c) hok
      | listAgents => exact hok
      | listChannels => exact hok
      | reserve paths reason => exact reservationsOk_handleReserve hok
      | release paths => exact reservationsOk_handleRelease hok
      | rename n =>
        exact reservationsOk_congr (reservations_handleRename s sid sender n) hok
      | presenceUpdate sm la =>
        exact reservationsOk_congr (reservations_handlePresenceUpdate s sid sender sm la) hok
      | statusUpdate st =>
        exact reservationsOk_congr (reservations_handleStatusUpdate s sid sender st) hok
      | heartbeat => exact hok

theorem reservationsOk_runOps {s : BrokerState} (ops : List Op)
    (hok : ReservationsOk s) : ReservationsOk (runOps s ops) := by
  induction ops generalizing s with
  | nil => exact hok
  | cons op rest ih =>
    exact ih (reservationsOk_step op hok)

theorem reservationsOk_init : ReservationsOk initState := by
  refine ⟨by simp [NodupKeys, alKeys, initState], ?_⟩
  intro e₁ he₁
  simp [initState] at he₁

/-- C1: in every broker state reachable from the initial empty state by
any sequence of register, message (reserve, release, rename, channel,
status, heartbeat, …) and disconnect operations, for every two distinct
agent ids that both have an entry in the reservation table, no path in
one entry overlaps (by the §4.5 overlap rule) any path in the other
entry. -/
theorem C1_reachable_reservations_disjoint (ops : List Op) (i j : String)
    (ri rj : ReservationInfo) (hij : i ≠ j)
    (hi : alGet (runOps initState ops).reservations i = some ri)
    (hj : alGet (runOps initState ops).reservations j = some rj) :
    ∀ p ∈ ri.paths, ∀ q ∈ rj.paths, reservationPathsOverlap p q = false := by
  have hok := reservationsOk_runOps ops reservationsOk_init
  exact fun p hp q hq =>
    hok.2 (i, ri) (alGet_mem hi) (j, rj) (alGet_mem hj)
      (by simpa using hij) p hp q hq

/-- Witness for C1 at a concrete run: two agents register and reserve
non-overlapping paths; the theorem instantiated there yields the
concrete disjointness fact. -/
theorem C1_reachable_reservations_disjoint_witness :
    reservationPathsOverlap "alpha/" "beta" = false := by
  have h := C1_reachable_reservations_disjoint
    [.register "t0" ⟨"A", "a", "r", none, "/", true⟩,
     .register "t1" ⟨"B", "b", "r", none, "/", true⟩,
     .message "A" (.reserve ["alpha/"] none),
     .message "B" (.reserve ["beta"] none)]
    "A" "B" ⟨["alpha/"], none⟩ ⟨["beta"], none⟩
    (by decide) (by decide) (by decide)
  exact h "alpha/" (by decide) "beta" (by decide)

-- ── C2: name-map bijection machinery ───────────────────────────────────

theorem state_handleDm (s : BrokerState) (sid : String) (sender : AgentInfo)
    (t c : String) (cid : Option String) :
    (handleDm s sid sender t c cid).1 = s := by
  unfold handleDm
  repeat' split
  all_goals rfl

theorem state_handleDmResponse (s : BrokerState) (sid : String)
    (sender : AgentInfo) (t cid c : String) :
    (handleDmResponse s sid sender t cid c).1 = s := by
  unfold handleDmResponse
  repeat' split
  all_goals rfl

theorem state_handleBroadcast (s : BrokerState) (sid : String)
    (sender : AgentInfo) (c : String) :
    (handleBroadcast s sid sender c).1 = s := rfl

theorem state_handleChannelSend (s : BrokerState) (sid : String)
    (sender : AgentInfo) (ch c : String) :
    (handleChannelSend s sid sender ch c).1 = s := by
  unfold handleChannelSend
  repeat' split
  all_goals rfl

theorem agents_handleReserve (s : BrokerState) (sid : String)
    (paths : List String) (reason : Option String) :
    (handleReserve s sid paths reason).1.agents = s.agents ∧
    (handleReserve s sid paths reason).1.nameToId = s.nameToId := by
  unfold handleReserve
  simp only []
  repeat' split
  all_goals exact ⟨rfl, rfl⟩

theorem agents_handleRelease (s : BrokerState) (sid : String)
    (paths : Option (List String)) :
    (handleRelease s sid paths).1.agents = s.agents ∧
    (handleRelease s sid paths).1.nameToId = s.nameToId := by
  unfold handleRelease
  simp only []
  repeat' split
  all_goals exact ⟨rfl, rfl⟩

theorem namesOk_congr {s s' : BrokerState} (ha : s'.agents = s.agents)
    (hn : s'.nameToId = s.nameToId) (hok : NamesOk s) : NamesOk s' := by
  unfold NamesOk at hok ⊢
  rw [ha, hn]
  exact hok

theorem namesOk_setAgent {s s' : BrokerState} {senderId : String}
    {sender info' : AgentInfo} (hok : NamesOk s)
    (hs : alGet s.agents senderId = some sender)
    (hname : info'.name = sender.name)
    (hA : s'.agents = alSet s.agents senderId info')
    (hN : s'.nameToId = s.nameToId) : NamesOk s' := by
  obtain ⟨hda, hdn, h3, h4, h5⟩ := hok
  have hsid : senderId ≠ "" := by
    intro hx
    rw [hx, h5] at hs
    cases hs
  refine ⟨?_, hN ▸ hdn, ?_, ?_, ?_⟩
  · unfold NodupKeys
    rw [hA, alKeys_alSet_of_mem _ (mem_keys_of_alGet hs)]
    exact hda
  · intro e he
    rw [hN] at he
    obtain ⟨a, ha1, ha2⟩ := h3 e he
    by_cases hid : e.2 = senderId
    · refine ⟨info', ?_, ?_⟩
      · rw [hA, hid]
        exact alGet_alSet_self ..
      · rw [hid] at ha1
        rw [hs] at ha1
        obtain rfl : a = sender := by simpa using ha1.symm
        rw [hname, ha2]
    · refine ⟨a, ?_, ha2⟩
      rw [hA, alGet_alSet_ne _ _ hid]
      exact ha1
  · intro e he
    rw [hA] at he
    rw [hN]
    rcases mem_alSet hda he with h | h
    · rw [h]
      show alGet s.nameToId info'.name = some senderId
      rw [hname]
      exact h4 (senderId, sender) (alGet_mem hs)
    · exact h4 e h.1
  · rw [hA, alGet_alSet_ne _ _ (Ne.symm hsid)]
    exact h5

theorem namesOk_handleRegister {s : BrokerState} {now : String}
    {m : RegisterMsg} (hok : NamesOk s)
    (hfresh : alGet s.agents m.id = none) (hid : m.id ≠ "") :
    NamesOk (handleRegister s now m).1 := by
  obtain ⟨hda, hdn, h3, h4, h5⟩ := hok
  have hfree : alGet s.nameToId (resolveName s.nameToId m.name) = none := by
    cases hb : alGet s.nameToId m.name with
    | none => rw [resolveName_free hb]; exact hb
    | some x =>
      obtain ⟨k, _, hk2, hk3, _⟩ := resolveName_taken hb
      rw [hk2]
      exact hk3
  unfold NodupKeys at hda hdn
  refine ⟨?_, ?_, ?_, ?_, ?_⟩
  · unfold NodupKeys
    show (alKeys (alSet s.agents m.id _)).Nodup
    rw [alKeys_alSet_of_not_mem _ (alGet_eq_none_iff.mp hfresh)]
    simp [List.nodup_append, hda, alGet_eq_none_iff.mp hfresh]
  · unfold NodupKeys
    show (alKeys (alSet s.nameToId (resolveName s.nameToId m.name) m.id)).Nodup
    rw [alKeys_alSet_of_not_mem _ (alGet_eq_none_iff.mp hfree)]
    simp [List.nodup_append, hdn, alGet_eq_none_iff.mp hfree]
  · intro e he
    rcases mem_alSet hdn he with h | h
    · rw [h]
      exact ⟨_, alGet_alSet_self .., rfl⟩
    · obtain ⟨a, ha1, ha2⟩ := h3 e h.1
      refine ⟨a, ?_, ha2⟩
      have hid : e.2 ≠ m.id := by
        intro hx
        rw [hx, hfresh] at ha1
        cases ha1
      rw [show (handleRegister s now m).1.agents = alSet s.agents m.id _ from rfl,
        alGet_alSet_ne _ _ hid]
      exact ha1
  · intro e he
    rcases mem_alSet hda he with h | h
    · rw [h]
      exact alGet_alSet_self ..
    · have hnm : e.2.name ≠ resolveName s.nameToId m.name := by
        intro hx
        have := h4 e h.1
        rw [hx, hfree] at this
        cases this
      rw [show (handleRegister s now m).1.nameToId =
          alSet s.nameToId (resolveName s.nameToId m.name) m.id from rfl,
        alGet_alSet_ne _ _ hnm]
      exact h4 e h.1
  · show alGet (alSet s.agents m.id _) "" = none
    rw [alGet_alSet_ne _ _ (Ne.symm hid)]
    exact h5

theorem namesOk_handleDisconnect {s : BrokerState} {agentId : String}
    (hok : NamesOk s) : NamesOk (handleDisconnect s agentId).1 := by
  obtain ⟨hda, hdn, h3, h4, h5⟩ := hok
  unfold handleDisconnect
  cases hag : alGet s.agents agentId with
  | none => exact ⟨hda, hdn, h3, h4, h5⟩
  | some agent =>
    simp only []
    refine ⟨nodupKeys_alDelete _ hda, nodupKeys_alDelete _ hdn, ?_, ?_, ?_⟩
    · intro e he
      obtain ⟨he1, he2⟩ := mem_alDelete he
      obtain ⟨a, ha1, ha2⟩ := h3 e he1
      have hid : e.2 ≠ agentId := by
        intro hx
        rw [hx, hag] at ha1
        obtain rfl : a = agent := by simpa using ha1.symm
        exact he2 (ha2 ▸ rfl)
      refine ⟨a, ?_, ha2⟩
      show alGet (alDelete s.agents agentId) e.2 = some a
      rw [alGet_alDelete_ne _ hid]
      exact ha1
    · intro e he
      obtain ⟨he1, he2⟩ := mem_alDelete he
      have hnm : e.2.name ≠ agent.name := by
        intro hx
        have hx1 := h4 e he1
        have hx2 := h4 (agentId, agent) (alGet_mem hag)
        rw [hx] at hx1
        rw [hx1] at hx2
        exact he2 (by simpa using hx2)
      show alGet (alDelete s.nameToId agent.name) e.2.name = some e.1
      rw [alGet_alDelete_ne _ hnm]
      exact h4 e he1
    · show alGet (alDelete s.agents agentId) "" = none
      by_cases hid : agentId = ""
      · rw [hid]
        exact alGet_alDelete_self ..
      · rw [alGet_alDelete_ne _ (fun hx => hid hx.symm)]
        exact h5

theorem namesOk_handleRename {s : BrokerState} {senderId : String}
    {sender : AgentInfo} {n : String} (hok : NamesOk s)
    (hs : alGet s.agents senderId = some sender) :
    NamesOk (handleRename s senderId sender n).1 := by
  obtain ⟨hda, hdn, h3, h4, h5⟩ := hok
  have hsid : senderId ≠ "" := by
    intro hx
    rw [hx, h5] at hs
    cases hs
  unfold handleRename
  simp only []
  by_cases hemp : jsTrim n = ""
  · rw [if_pos hemp]
    exact ⟨hda, hdn, h3, h4, h5⟩
  · rw [if_neg hemp]
    cases hown : alGet s.nameToId (jsTrim n) with
    | some ownerId =>
      obtain ⟨a, ha1, ha2⟩ := h3 (jsTrim n, ownerId) (alGet_mem hown)
      have howner : ownerId ≠ "" := by
        intro hx
        rw [hx, h5] at ha1
        cases ha1
      by_cases hoid : ownerId = senderId
      · have hguard : renameTaken s.nameToId senderId (jsTrim n) = false := by
          unfold renameTaken
          rw [hown]
          simp [hoid]
        rw [hguard]
        rw [if_neg (show ¬ ((false : Bool) = true) from by simp)]
        rw [hoid, hs] at ha1
        have haeq : sender = a := by simpa using ha1
        have hnn : ¬ (sender.name ≠ jsTrim n) := by simp [haeq, ha2]
        rw [if_neg hnn]
        exact ⟨hda, hdn, h3, h4, h5⟩
      · have hguard : renameTaken s.nameToId senderId (jsTrim n) = true := by
          unfold renameTaken
          rw [hown]
          simp [howner, hoid]
        rw [hguard]
        rw [if_pos rfl]
        exact ⟨hda, hdn, h3, h4, h5⟩
    | none =>
      have hguard : renameTaken s.nameToId senderId (jsTrim n) = false := by
        unfold renameTaken
        rw [hown]
      rw [hguard]
      rw [if_neg (show ¬ ((false : Bool) = true) from by simp)]
      by_cases hold : sender.name ≠ jsTrim n
      · rw [if_pos hold]
        have hdd : NodupKeys (alDelete s.nameToId sender.name) :=
          nodupKeys_alDelete _ hdn
        have hfree : alGet (alDelete s.nameToId sender.name) (jsTrim n) = none := by
          rw [alGet_alDelete_ne _ (Ne.symm hold)]
          exact hown
        refine ⟨?_, ?_, ?_, ?_, ?_⟩
        · unfold NodupKeys
          show (alKeys (alSet s.agents senderId _)).Nodup
          rw [alKeys_alSet_of_mem _ (mem_keys_of_alGet hs)]
          exact hda
        · unfold NodupKeys
          show (alKeys (alSet (alDelete s.nameToId sender.name) (jsTrim n) senderId)).Nodup
          rw [alKeys_alSet_of_not_mem _ (alGet_eq_none_iff.mp hfree)]
          unfold NodupKeys at hdd
          simp [List.nodup_append, hdd, alGet_eq_none_iff.mp hfree]
        · intro e he
          rcases mem_alSet hdd he with h | h
          · rw [h]
            exact ⟨_, alGet_alSet_self .., rfl⟩
          · obtain ⟨he1, hne⟩ := mem_alDelete h.1
            obtain ⟨a, ha1, ha2⟩ := h3 e he1
            have hid : e.2 ≠ senderId := by
              intro hx
              rw [hx, hs] at ha1
              obtain rfl : a = sender := by simpa using ha1.symm
              exact hne (ha2 ▸ rfl)
            refine ⟨a, ?_, ha2⟩
            show alGet (alSet s.agents senderId _) e.2 = some a
            rw [alGet_alSet_ne _ _ hid]
            exact ha1
        · intro e he
          rcases mem_alSet hda he with h | h
          · rw [h]
            exact alGet_alSet_self ..
          · have hnm1 : e.2.name ≠ jsTrim n := by
              intro hx
              have := h4 e h.1
              rw [hx, hown] at this
              cases this
            show alGet (alSet (alDelete s.nameToId sender.name) (jsTrim n) senderId)
              e.2.name = some e.1
            rw [alGet_alSet_ne _ _ hnm1]
            have hnm2 : e.2.name ≠ sender.name := by
              intro hx
              have hx1 := h4 e h.1
              have hx2 := h4 (senderId, sender) (alGet_mem hs)
              rw [hx] at hx1
              rw [hx1] at hx2
              exact h.2 (by simpa using hx2)
            rw [alGet_alDelete_ne _ hnm2]
            exact h4 e h.1
        · show alGet (alSet s.agents senderId _) "" = none
          rw [alGet_alSet_ne _ _ (Ne.symm hsid)]
          exact h5
      · rw [if_neg hold]
        exact ⟨hda, hdn, h3, h4, h5⟩

theorem namesOk_handleChannelCreate {s : BrokerState} {senderId : String}
    {sender : AgentInfo} {ch : String} (hok : NamesOk s)
    (hs : alGet s.agents senderId = some sender) :
    NamesOk (handleChannelCreate s senderId sender ch).1 := by
  unfold handleChannelCreate
  split
  · exact hok
  · refine namesOk_setAgent hok hs ?_ rfl rfl
    rfl

theorem namesOk_handleChannelJoin {s : BrokerState} {senderId : String}
    {sender : AgentInfo} {ch : String} (hok : NamesOk s)
    (hs : alGet s.agents senderId = some sender) :
    NamesOk (handleChannelJoin s senderId sender ch).1 := by
  unfold handleChannelJoin
  split
  · exact hok
  · refine namesOk_setAgent hok hs ?_ rfl rfl
    split <;> rfl

theorem namesOk_handleChannelLeave {s : BrokerState} {senderId : String}
    {sender : AgentInfo} {ch : String} (hok : NamesOk s)
    (hs : alGet s.agents senderId = some sender) :
    NamesOk (handleChannelLeave s senderId sender ch).1 := by
  unfold handleChannelLeave
  split
  · exact hok
  · split
    · exact hok
    · refine namesOk_setAgent hok hs ?_ rfl rfl
      rfl

theorem namesOk_handlePresenceUpdate {s : BrokerState} {senderId : String}
    {sender : AgentInfo} {sm : Option String} {la : String} (hok : NamesOk s)
    (hs : alGet s.agents senderId = some sender) :
    NamesOk (handlePresenceUpdate s senderId sender sm la).1 := by
  refine namesOk_setAgent hok hs ?_ rfl rfl
  rfl

theorem namesOk_handleStatusUpdate {s : BrokerState} {senderId : String}
    {sender : AgentInfo} {st : String} (hok : NamesOk s)
    (hs : alGet s.agents senderId = some sender) :
    NamesOk (handleStatusUpdate s senderId sender st).1 := by
  refine namesOk_setAgent hok hs ?_ rfl rfl
  rfl

theorem namesOk_step {s : BrokerState} (op : Op) (hok : NamesOk s)
    (hfresh : ∀ now m, op = .register now m →
      alGet s.agents m.id = none ∧ m.id ≠ "") :
    NamesOk (stepOp s op) := by
  cases op with
  | register now m =>
    exact namesOk_handleRegister hok (hfresh now m rfl).1 (hfresh now m rfl).2
  | disconnect id => exact namesOk_handleDisconnect hok
  | message sid msg =>
    show NamesOk (handleMessage s sid msg).1
    unfold handleMessage
    cases halg : alGet s.agents sid with
    | none => exact hok
    | some sender =>
      cases msg with
      | register m => exact hok
      | dm t c cid =>
        exact namesOk_congr (congrArg BrokerState.agents (state_handleDm s sid sender t c cid))
          (congrArg BrokerState.nameToId (state_handleDm s sid sender t c cid)) hok
      | dmResponse t cid c =>
        exact namesOk_congr
          (congrArg BrokerState.agents (state_handleDmResponse s sid sender t cid c))
          (congrArg BrokerState.nameToId (state_handleDmResponse s sid sender t cid c)) hok
      | broadcast c => exact hok
      | channelCreate ch => exact namesOk_handleChannelCreate hok halg
      | channelJoin ch => exact namesOk_handleChannelJoin hok halg
      | channelLeave ch => exact namesOk_handleChannelLeave hok halg
      | channelSend ch c =>
        exact namesOk_congr
          (congrArg BrokerState.agents (state_handleChannelSend s sid sender ch c))
          (congrArg BrokerState.nameToId (state_handleChannelSend s sid sender ch c)) hok
      | listAgents => exact hok
      | listChannels => exact hok
      | reserve paths reason =>
        exact namesOk_congr (agents_handleReserve s sid paths reason).1
          (agents_handleReserve s sid paths reason).2 hok
      | release paths =>
        exact namesOk_congr (agents_handleRelease s sid paths).1
          (agents_handleRelease s sid paths).2 hok
      | rename n => exact namesOk_handleRename hok halg
      | presenceUpdate sm la => exact namesOk_handlePresenceUpdate hok halg
      | statusUpdate st => exact namesOk_handleStatusUpdate hok halg
      | heartbeat => exact hok

theorem namesOk_runOps {s : BrokerState} (ops : List Op) (hok : NamesOk s)
    (hfresh : freshRegs s ops = true) : NamesOk (runOps s ops) := by
  induction ops generalizing s with
  | nil => exact hok
  | cons op rest ih =>
    rw [show runOps s (op :: rest) = runOps (stepOp s op) rest from rfl]
    cases op with
    | register now m =>
      rw [show freshRegs s (Op.register now m :: rest) =
          (((!alHas s.agents m.id) && decide (m.id ≠ "")) &&
            freshRegs (stepOp s (Op.register now m)) rest)
          from rfl, Bool.and_eq_true, Bool.and_eq_true] at hfresh
      refine ih (namesOk_step _ hok ?_) hfresh.2
      intro now' m' heq
      cases heq
      have h1 := hfresh.1.1
      have h2 := hfresh.1.2
      refine ⟨?_, by simpa using h2⟩
      cases halg : alGet s.agents m.id with
      | none => rfl
      | some a => simp [alHas, halg] at h1
    | message sid msg =>
      rw [show freshRegs s (Op.message sid msg :: rest) =
          (true && freshRegs (stepOp s (Op.message sid msg)) rest)
          from rfl, Bool.and_eq_true] at hfresh
      refine ih (namesOk_step _ hok ?_) hfresh.2
      intro now' m' heq
      cases heq
    | disconnect id =>
      rw [show freshRegs s (Op.disconnect id :: rest) =
          (true && freshRegs (stepOp s (Op.disconnect id)) rest)
          from rfl, Bool.and_eq_true] at hfresh
      refine ih (namesOk_step _ hok ?_) hfresh.2
      intro now' m' heq
      cases heq

theorem namesOk_init : NamesOk initState := by
  refine ⟨by simp [NodupKeys, alKeys, initState], by simp [NodupKeys, alKeys, initState],
    ?_, ?_, rfl⟩
  · intro e he
    simp [initState] at he
  · intro e he
    simp [initState] at he

theorem namesOk_implies_bijection {s : BrokerState} (hok : NamesOk s) :
    NameMapBijection s := by
  obtain ⟨hda, hdn, h3, h4, h5⟩ := hok
  refine ⟨h4, ?_, ?_⟩
  · intro e₁ he₁ e₂ he₂ hne heq
    have hx1 := h4 e₁ he₁
    have hx2 := h4 e₂ he₂
    rw [heq] at hx1
    rw [hx1] at hx2
    exact hne (by simpa using hx2)
  · intro e he
    obtain ⟨a, ha1, _⟩ := h3 e he
    simp [ha1]

/-- C2 (amended): in every broker state reachable by a sequence of
operations in which every register carries a non-empty id and no register
reuses an id that is currently registered, the name-to-id map is a
bijection onto the live registry: each registered agent's name maps to
its id, distinct agents have distinct names, and every name-map entry
points at a registered id. -/
theorem C2_name_map_bijection (ops : List Op)
    (hfresh : freshRegs initState ops = true) :
    NameMapBijection (runOps initState ops) :=
  namesOk_implies_bijection (namesOk_runOps ops namesOk_init hfresh)

/-- Witness for C2 at a concrete fresh-id run (second agent requests the
same display name and gets the `-2` suffix). -/
theorem C2_name_map_bijection_witness :
    freshRegs initState
      [.register "t0" ⟨"X", "a", "r", none, "/", true⟩,
       .register "t1" ⟨"Y", "a", "r", none, "/", true⟩] = true ∧
    NameMapBijection (runOps initState
      [.register "t0" ⟨"X", "a", "r", none, "/", true⟩,
       .register "t1" ⟨"Y", "a", "r", none, "/", true⟩]) :=
  ⟨by decide, C2_name_map_bijection _ (by decide)⟩

/-- C2 counterexample: when the same id registers twice (under names "a"
then "b") and then disconnects, the stale entry `"a" → "X"` survives in
the name map while the registry is empty, so the claimed bijection fails
on this reachable state. -/
theorem C2_counterexample :
    ¬ NameMapBijection (runOps initState
      [.register "t0" ⟨"X", "a", "r", none, "/", true⟩,
       .register "t1" ⟨"X", "b", "r", none, "/", true⟩,
       .disconnect "X"]) := by
  unfold NameMapBijection
  decide

-- ── C3: register name resolution and registered reply ──────────────────

/-- C3: on every register request, if the requested name is free the agent
is installed under that exact name, otherwise under `name-k` for the
smallest `k ≥ 2` whose suffixed name is free; and the first send is the
`registered` reply to the newcomer carrying the full current roster, in
which the newcomer appears under its resolved name with status `idle` and
an empty channel set. -/
theorem C3_register_name_resolution (s : BrokerState) (now : String)
    (m : RegisterMsg) :
    (alGet s.nameToId m.name = none →
      resolveName s.nameToId m.name = m.name) ∧
    (∀ x, alGet s.nameToId m.name = some x →
      ∃ k, 2 ≤ k ∧
        resolveName s.nameToId m.name = m.name ++ "-" ++ natToString k ∧
        alGet s.nameToId (m.name ++ "-" ++ natToString k) = none ∧
        ∀ j, 2 ≤ j → j < k →
          alGet s.nameToId (m.name ++ "-" ++ natToString j) ≠ none) ∧
    (handleRegister s now m).2.head? = some (m.id,
      .registered m.id (getAgents (handleRegister s now m).1)
        (getReservations (handleRegister s now m).1)) ∧
    alGet (handleRegister s now m).1.agents m.id = some
      ⟨m.id, resolveName s.nameToId m.name, m.role, m.parentId, m.cwd,
        "idle", [], m.interactive, none, some now⟩ ∧
    (⟨m.id, resolveName s.nameToId m.name, m.role, m.parentId, m.cwd,
        "idle", [], m.interactive, none, some now⟩ : AgentInfo) ∈
      getAgents (handleRegister s now m).1 := by
  refine ⟨?_, ?_, rfl, ?_, ?_⟩
  · intro h
    exact resolveName_free h
  · intro x h
    exact resolveName_taken h
  · exact alGet_alSet_self ..
  · have hm : (m.id, (⟨m.id, resolveName s.nameToId m.name, m.role,
        m.parentId, m.cwd, "idle", [], m.interactive, none,
        some now⟩ : AgentInfo)) ∈ (handleRegister s now m).1.agents :=
      alGet_mem (alGet_alSet_self ..)
    exact List.mem_map.mpr ⟨_, hm, rfl⟩

/-- Witness for C3: registering a second "scout" against a map already
holding "scout" resolves to the smallest free suffix. -/
theorem C3_register_name_resolution_witness :
    ∃ k, 2 ≤ k ∧
      resolveName [("scout", "S1")] "scout" = "scout" ++ "-" ++ natToString k ∧
      alGet [("scout", "S1")] ("scout" ++ "-" ++ natToString k) = none ∧
      ∀ j, 2 ≤ j → j < k →
        alGet [("scout", "S1")] ("scout" ++ "-" ++ natToString j) ≠ none :=
  (C3_register_name_resolution
    ⟨[("S1", ⟨"S1", "scout", "r", none, "/", "idle", [], true, none, none⟩)],
     [("scout", "S1")], [], []⟩ "t0"
    ⟨"S2", "scout", "r", none, "/", true⟩).2.1 "S1" (by decide)

-- ── C4: correlated-DM reply extraction ─────────────────────────────────

theorem partText_none_of_not {p : MsgPart} (h : ¬ NonEmptyTextPart p) :
    partText p = none := by
  unfold partText
  by_cases ht : p.type = "text"
  · rw [if_pos ht]
    cases hx : p.text with
    | none => rfl
    | some t =>
      have hcond : ¬ (t ≠ "" ∧ jsTrim t ≠ "") := by
        rintro ⟨_, h2⟩
        exact h ⟨ht, t, hx, h2⟩
      show (if t ≠ "" ∧ jsTrim t ≠ "" then some t else none) = none
      rw [if_neg hcond]
  · rw [if_neg ht]

theorem partText_some_of (p : MsgPart) (t : String) (h1 : p.type = "text")
    (h2 : p.text = some t) (h3 : jsTrim t ≠ "") : partText p = some t := by
  unfold partText
  rw [if_pos h1, h2]
  have hne : t ≠ "" := by
    intro hx
    rw [hx] at h3
    exact h3 rfl
  show (if t ≠ "" ∧ jsTrim t ≠ "" then some t else none) = some t
  rw [if_pos ⟨hne, h3⟩]

theorem findSome?_append_none {α β : Type} {f : α → Option β}
    {l₁ l₂ : List α} (h : ∀ x ∈ l₁, f x = none) :
    (l₁ ++ l₂).findSome? f = l₂.findSome? f := by
  rw [List.findSome?_append, List.findSome?_eq_none_iff.mpr h]
  cases l₂.findSome? f <;> rfl

/-- The per-message scan step of `extractLastAssistantText`. -/
theorem extract_scan_none {mm : ConvMessage}
    (h : mm.role = "assistant" →
      ∀ parts, mm.content = some parts → ∀ p ∈ parts, ¬ NonEmptyTextPart p) :
    (if mm.role = "assistant" then
      match mm.content with
      | some parts => parts.reverse.findSome? partText
      | none => none
    else none) = none := by
  by_cases hr : mm.role = "assistant"
  · rw [if_pos hr]
    cases hc : mm.content with
    | none => rfl
    | some parts =>
      show parts.reverse.findSome? partText = none
      refine List.findSome?_eq_none_iff.mpr ?_
      intro p hp
      exact partText_none_of_not (h hr parts hc p (List.mem_reverse.mp hp))
  · rw [if_neg hr]

/-- C4 (amended): on the next `agent_end` with a pending reply recorded,
the inbox sends exactly one `dm_response` to the recorded sender with the
recorded correlation id; its content is the trimmed text of the last
non-empty text block of the last assistant message that has one
(scanning messages and their parts from the end), and it is the fallback
literal exactly when no assistant message in the log contains a
non-empty text block. -/
theorem C4_reply_extraction (pr : PendingReply) (msgs : List ConvMessage) :
    ∃ c, (onAgentEnd (some pr) msgs).2 =
        [.dmResponse pr.agentName pr.correlationId c] ∧
      ((∀ mm ∈ msgs, mm.role = "assistant" →
          ∀ parts, mm.content = some parts →
            ∀ p ∈ parts, ¬ NonEmptyTextPart p) → c = fallbackReply) ∧
      (∀ (l₁ : List ConvMessage) (mm : ConvMessage) (l₂ : List ConvMessage)
          (parts : List MsgPart) (q₁ : List MsgPart) (pp : MsgPart)
          (q₂ : List MsgPart) (t : String),
        msgs = l₁ ++ mm :: l₂ →
        mm.role = "assistant" →
        mm.content = some parts →
        parts = q₁ ++ pp :: q₂ →
        pp.type = "text" →
        pp.text = some t →
        jsTrim t ≠ "" →
        (∀ p ∈ q₂, ¬ NonEmptyTextPart p) →
        (∀ mm' ∈ l₂, mm'.role = "assistant" →
          ∀ parts', mm'.content = some parts' →
            ∀ p ∈ parts', ¬ NonEmptyTextPart p) →
        c = jsTrim t) := by
  refine ⟨if jsTrim (extractLastAssistantText msgs) = "" then fallbackReply
          else jsTrim (extractLastAssistantText msgs), rfl, ?_, ?_⟩
  · intro h
    have hnone : extractLastAssistantText msgs = "" := by
      unfold extractLastAssistantText
      rw [List.findSome?_eq_none_iff.mpr ?_]
      intro mm hmm
      exact extract_scan_none (fun hr parts hc => h mm (List.mem_reverse.mp hmm) hr parts hc)
    rw [hnone]
    rw [if_pos (show jsTrim "" = "" from rfl)]
  · intro l₁ mm l₂ parts q₁ pp q₂ t hsplit hrole hcontent hpsplit htype htext htrim hq₂ hl₂
    have hfound : extractLastAssistantText msgs = t := by
      unfold extractLastAssistantText
      rw [hsplit]
      rw [show (l₁ ++ mm :: l₂).reverse = l₂.reverse ++ (mm :: l₁.reverse) from by
        simp]
      rw [findSome?_append_none ?_]
      · rw [show (mm :: l₁.reverse).findSome? _ = _ from List.findSome?_cons]
        have hgm : (if mm.role = "assistant" then
            match mm.content with
            | some parts => parts.reverse.findSome? partText
            | none => none
          else none) = some t := by
          rw [if_pos hrole, hcontent]
          show parts.reverse.findSome? partText = some t
          rw [hpsplit]
          rw [show (q₁ ++ pp :: q₂).reverse = q₂.reverse ++ (pp :: q₁.reverse) from by
            simp]
          rw [findSome?_append_none ?_]
          · rw [show (pp :: q₁.reverse).findSome? partText = _ from List.findSome?_cons]
            rw [partText_some_of pp t htype htext htrim]
          · intro p hp
            exact partText_none_of_not (hq₂ p (List.mem_reverse.mp hp))
        rw [hgm]
      · intro mm' hmm'
        exact extract_scan_none
          (fun hr parts' hc => hl₂ mm' (List.mem_reverse.mp hmm') hr parts' hc)
    rw [hfound, if_neg htrim]

/-- Witness for C4's amended theorem on a concrete log: the earlier
assistant message holds the text block, the last assistant message holds
only a tool-use part. -/
theorem C4_reply_extraction_witness :
    (onAgentEnd (some ⟨"hub", "c1"⟩)
      [⟨"assistant", some [⟨"text", some " hi "⟩]⟩,
       ⟨"assistant", some [⟨"tool_use", none⟩]⟩]).2 =
    [.dmResponse "hub" "c1" "hi"] := by
  obtain ⟨c, h1, _h2, h3⟩ := C4_reply_extraction ⟨"hub", "c1"⟩
    [⟨"assistant", some [⟨"text", some " hi "⟩]⟩,
     ⟨"assistant", some [⟨"tool_use", none⟩]⟩]
  have hc : c = jsTrim " hi " := by
    refine h3 [] ⟨"assistant", some [⟨"text", some " hi "⟩]⟩
      [⟨"assistant", some [⟨"tool_use", none⟩]⟩]
      [⟨"text", some " hi "⟩] [] ⟨"text", some " hi "⟩ [] " hi "
      rfl rfl rfl rfl rfl rfl (by decide) ?_ ?_
    · intro p hp
      simp at hp
    · intro mm' hmm' hr parts' hc' p hp
      simp only [List.mem_singleton] at hmm'
      rw [hmm'] at hc'
      obtain rfl : parts' = [⟨"tool_use", none⟩] := by simpa using hc'.symm
      simp only [List.mem_singleton] at hp
      rintro ⟨hτ, tt, hx, _⟩
      rw [hp] at hx
      cases hx
  rw [h1, hc]
  rfl

/-- C4 counterexample: the last assistant message in the log contains no
non-empty text block (only a tool-use part), yet the `dm_response`
content is the text of an earlier assistant message — not the fallback
literal the claim requires. -/
theorem C4_counterexample :
    (onAgentEnd (some ⟨"hub", "c1"⟩)
      [⟨"assistant", some [⟨"text", some "hello"⟩]⟩,
       ⟨"assistant", some [⟨"tool_use", none⟩]⟩]).2 =
      [.dmResponse "hub" "c1" "hello"] ∧
    "hello" ≠ fallbackReply := by
  constructor
  · rfl
  · decide

-- ── C5: reserve/release round trip ─────────────────────────────────────

theorem handleRelease_cons_eq {s : BrokerState} {senderId : String}
    {ex : ReservationInfo} {p0 : String} {ps' : List String}
    (hget : alGet s.reservations senderId = some ex) :
    handleRelease s senderId (some (p0 :: ps')) =
      ({ s with reservations :=
          if ex.paths.filter (fun p => ¬ p ∈ ((p0 :: ps').map
              normalizeReservationPath).filter (fun p => p ≠ "")) = [] then
            alDelete s.reservations senderId
          else
            (alSet s.reservations senderId
              { paths := ex.paths.filter (fun p => ¬ p ∈ ((p0 :: ps').map
                  normalizeReservationPath).filter (fun p => p ≠ "")),
                reason := ex.reason }) },
       broadcastReservationsUpdated
        { s with reservations :=
          if ex.paths.filter (fun p => ¬ p ∈ ((p0 :: ps').map
              normalizeReservationPath).filter (fun p => p ≠ "")) = [] then
            alDelete s.reservations senderId
          else
            (alSet s.reservations senderId
              { paths := ex.paths.filter (fun p => ¬ p ∈ ((p0 :: ps').map
                  normalizeReservationPath).filter (fun p => p ≠ "")),
                reason := ex.reason }) }) := by
  unfold handleRelease
  rw [hget]
  rfl

/-- C5 (amended): for every broker state, registered agent and accepted
path list, **when the caller holds no reservation entry beforehand**, a
successful reserve followed by a release of the same paths returns the
reservation table to exactly its prior state, the only sends being the
two `reservations_updated` broadcasts. -/
theorem C5_reserve_release_roundtrip (s : BrokerState) (senderId : String)
    (ps : List String) (reason : Option String)
    (hnone : alGet s.reservations senderId = none)
    (hne : dedupePaths ((ps.map normalizeReservationPath).filter
      (fun p => p ≠ "")) ≠ [])
    (hconf : findConflict s.reservations senderId
      (dedupePaths ((ps.map normalizeReservationPath).filter
        (fun p => p ≠ ""))) = none) :
    (handleRelease (handleReserve s senderId ps reason).1 senderId
      (some ps)).1 = s ∧
    (handleReserve s senderId ps reason).2 =
      broadcastAll s.agents (.reservationsUpdated
        (handleReserve s senderId ps reason).1.reservations) ∧
    (handleRelease (handleReserve s senderId ps reason).1 senderId
      (some ps)).2 =
      broadcastAll s.agents (.reservationsUpdated s.reservations) := by
  have hps : ps ≠ [] := by
    intro hx
    rw [hx] at hne
    exact hne rfl
  obtain ⟨p0, ps', rfl⟩ : ∃ a l, ps = a :: l := by
    cases ps with
    | nil => exact absurd rfl hps
    | cons a l => exact ⟨a, l, rfl⟩
  have hmerged : dedupePaths ([] ++ dedupePaths (((p0 :: ps').map
      normalizeReservationPath).filter (fun p => p ≠ ""))) =
      dedupePaths (((p0 :: ps').map normalizeReservationPath).filter
        (fun p => p ≠ "")) := by
    rw [List.nil_append]
    exact dedupePaths_eq_self (nodup_dedupePaths _)
  have hres : handleReserve s senderId (p0 :: ps') reason =
      ({ s with reservations := (alSet s.reservations senderId
          { paths := dedupePaths (((p0 :: ps').map normalizeReservationPath).filter (fun p => p ≠ "")),
            reason := reason }) },
       broadcastAll s.agents (.reservationsUpdated
         (alSet s.reservations senderId
          { paths := dedupePaths (((p0 :: ps').map normalizeReservationPath).filter (fun p => p ≠ "")),
            reason := reason }))) := by
    simp only [handleReserve]
    rw [if_neg hne, hconf]
    rw [hnone, hmerged]
    cases reason <;> rfl
  have hrem : (dedupePaths (((p0 :: ps').map normalizeReservationPath).filter
      (fun p => p ≠ ""))).filter
        (fun p => ¬ p ∈ ((p0 :: ps').map normalizeReservationPath).filter
          (fun p => p ≠ "")) = [] := by
    rw [List.filter_eq_nil_iff]
    intro a ha
    have hmem := mem_dedupePaths.mp ha
    simp only [decide_eq_true_eq]
    exact fun hcon => hcon hmem
  have hdel : alDelete (alSet s.reservations senderId
      { paths := dedupePaths (((p0 :: ps').map normalizeReservationPath).filter (fun p => p ≠ "")),
        reason := reason }) senderId = s.reservations :=
    alDelete_alSet_not_mem _ (alGet_eq_none_iff.mp hnone)
  have hrel : handleRelease (handleReserve s senderId (p0 :: ps') reason).1
      senderId (some (p0 :: ps')) =
      (s, broadcastAll s.agents (.reservationsUpdated s.reservations)) := by
    rw [hres]
    rw [handleRelease_cons_eq (alGet_alSet_self ..)]
    rw [show ((⟨dedupePaths (((p0 :: ps').map normalizeReservationPath).filter (fun p => p ≠ "")),
        reason⟩ : ReservationInfo)).paths =
        dedupePaths (((p0 :: ps').map normalizeReservationPath).filter (fun p => p ≠ "")) from rfl]
    rw [hrem]
    rw [if_pos rfl]
    rw [hdel]
    rfl
  refine ⟨?_, ?_, ?_⟩
  · rw [hrel]
  · rw [hres]
  · rw [hrel]

/-- Witness for C5's amended theorem at a concrete state with no prior
entry for the caller. -/
theorem C5_reserve_release_roundtrip_witness :
    (handleRelease (handleReserve c5Init "A" ["x"] none).1 "A"
      (some ["x"])).1 = c5Init :=
  (C5_reserve_release_roundtrip c5Init "A" ["x"] none rfl
    (by decide) (by decide)).1

/-- C5 counterexample: agent `A` already holds `"p"`; reserving
`["p", "q"]` is accepted (the table becomes the merged entry and the
success broadcast is sent), but releasing the same list deletes the whole
entry instead of restoring the prior table `[("A", ⟨["p"], none⟩)]`. -/
theorem C5_counterexample :
    (handleReserve c5Prior "A" ["p", "q"] none).1.reservations =
      [("A", ⟨["p", "q"], none⟩)] ∧
    (handleReserve c5Prior "A" ["p", "q"] none).2 =
      [("A", .reservationsUpdated [("A", ⟨["p", "q"], none⟩)])] ∧
    (handleRelease (handleReserve c5Prior "A" ["p", "q"] none).1 "A"
      (some ["p", "q"])).1.reservations = [] ∧
    c5Prior.reservations = [("A", ⟨["p"], none⟩)] :=
  ⟨rfl, rfl, rfl, rfl⟩

-- ── Send-counting lemmas ───────────────────────────────────────────────

theorem sendCount_broadcastAll_zero {agents : List (String × AgentInfo)}
    {j : String} {msg t : BrokerMessage} (hj : j ∉ alKeys agents) :
    sendCount (broadcastAll agents msg) (j, t) = 0 := by
  induction agents with
  | nil => rfl
  | cons e rest ih =>
    simp only [alKeys, List.map_cons, List.mem_cons] at hj
    push_neg at hj
    unfold sendCount broadcastAll at ih ⊢
    rw [List.map_cons, List.countP_cons]
    rw [if_neg (by simp [Ne.symm hj.1])]
    simpa using ih hj.2

theorem sendCount_broadcastAll {agents : List (String × AgentInfo)}
    {j : String} {msg : BrokerMessage} (hnd : (alKeys agents).Nodup)
    (hj : j ∈ alKeys agents) :
    sendCount (broadcastAll agents msg) (j, msg) = 1 := by
  induction agents with
  | nil => simp [alKeys] at hj
  | cons e rest ih =>
    simp only [alKeys, List.map_cons, List.nodup_cons] at hnd
    simp only [alKeys, List.map_cons, List.mem_cons] at hj
    unfold sendCount broadcastAll at ih ⊢
    rw [List.map_cons, List.countP_cons]
    rcases hj with hj | hj
    · rw [if_pos (by simp [hj])]
      have hz : sendCount (broadcastAll rest msg) (j, msg) = 0 :=
        sendCount_broadcastAll_zero (hj ▸ hnd.1)
      unfold sendCount broadcastAll at hz
      rw [hz]
    · rw [if_neg ?_]
      · simpa using ih hnd.2 hj
      · intro hx
        simp only [decide_eq_true_eq, Prod.mk.injEq] at hx
        exact hnd.1 (hx.1 ▸ hj)

theorem sendCount_broadcastExcept_zero {agents : List (String × AgentInfo)}
    {ex j : String} {msg t : BrokerMessage} (hj : j ∉ alKeys agents) :
    sendCount (broadcastExcept agents ex msg) (j, t) = 0 := by
  induction agents with
  | nil => rfl
  | cons e rest ih =>
    simp only [alKeys, List.map_cons, List.mem_cons] at hj
    push_neg at hj
    unfold sendCount broadcastExcept at ih ⊢
    rw [List.filterMap_cons]
    by_cases hex : e.1 = ex
    · rw [if_pos hex]
      exact ih hj.2
    · rw [if_neg hex]
      rw [List.countP_cons]
      rw [if_neg (by simp [Ne.symm hj.1])]
      simpa using ih hj.2

theorem sendCount_broadcastExcept {agents : List (String × AgentInfo)}
    {ex j : String} {msg : BrokerMessage} (hnd : (alKeys agents).Nodup)
    (hj : j ∈ alKeys agents) (hne : j ≠ ex) :
    sendCount (broadcastExcept agents ex msg) (j, msg) = 1 := by
  induction agents with
  | nil => simp [alKeys] at hj
  | cons e rest ih =>
    simp only [alKeys, List.map_cons, List.nodup_cons] at hnd
    simp only [alKeys, List.map_cons, List.mem_cons] at hj
    unfold sendCount broadcastExcept at ih ⊢
    rw [List.filterMap_cons]
    rcases hj with hj | hj
    · rw [if_neg (by rw [← hj]; exact hne)]
      rw [List.countP_cons]
      rw [if_pos (by simp [hj])]
      have hz : sendCount (broadcastExcept rest ex msg) (j, msg) = 0 :=
        sendCount_broadcastExcept_zero (hj ▸ hnd.1)
      unfold sendCount broadcastExcept at hz
      rw [hz]
    · by_cases hex : e.1 = ex
      · rw [if_pos hex]
        exact ih hnd.2 hj
      · rw [if_neg hex]
        rw [List.countP_cons]
        rw [if_neg ?_]
        · simpa using ih hnd.2 hj
        · intro hx
          simp only [decide_eq_true_eq, Prod.mk.injEq] at hx
          exact hnd.1 (hx.1 ▸ hj)

theorem mem_broadcastExcept {agents : List (String × AgentInfo)}
    {ex : String} {msg : BrokerMessage} {e : Send}
    (he : e ∈ broadcastExcept agents ex msg) : e.1 ≠ ex ∧ e.2 = msg := by
  obtain ⟨a, _, ha⟩ := List.mem_filterMap.mp he
  by_cases hex : a.1 = ex
  · rw [if_pos hex] at ha
    cases ha
  · rw [if_neg hex] at ha
    obtain rfl : (a.1, msg) = e := by simpa using ha
    exact ⟨hex, rfl⟩

theorem mem_broadcastAll {agents : List (String × AgentInfo)}
    {msg : BrokerMessage} {e : Send} (he : e ∈ broadcastAll agents msg) :
    e.2 = msg := by
  obtain ⟨a, _, ha⟩ := List.mem_map.mp he
  rw [← ha]

-- ── C6: broadcast fan-out ──────────────────────────────────────────────

/-- C6: when a registered agent broadcasts, every other registered agent
is sent exactly one `broadcast` record carrying the sender's id, current
display name and the content, and the sender is sent none (every send of
the handler is such a record to a non-sender). -/
theorem C6_broadcast_exclusion (s : BrokerState) (senderId : String)
    (sender : AgentInfo) (content : String)
    (hs : alGet s.agents senderId = some sender)
    (hnd : NodupKeys s.agents) :
    (∀ j a, (j, a) ∈ s.agents → j ≠ senderId →
      sendCount (handleBroadcast s senderId sender content).2
        (j, .broadcast senderId sender.name content) = 1) ∧
    (∀ e ∈ (handleBroadcast s senderId sender content).2,
      e.1 ≠ senderId ∧ e.2 = .broadcast senderId sender.name content) := by
  constructor
  · intro j a hmem hne
    exact sendCount_broadcastExcept hnd
      (List.mem_map.mpr ⟨(j, a), hmem, rfl⟩) hne
  · intro e he
    exact mem_broadcastExcept he

/-- Witness for C6 on a two-agent registry. -/
theorem C6_broadcast_exclusion_witness :
    sendCount (handleBroadcast c6State "A" agentA "hello").2
      ("B", .broadcast "A" "a" "hello") = 1 := by
  have h := C6_broadcast_exclusion c6State "A" agentA "hello" (by decide)
    (by unfold NodupKeys alKeys c6State; decide)
  exact h.1 "B" agentB (by decide) (by decide)

-- ── C7: release always broadcasts once ─────────────────────────────────

theorem handleRelease_sends (s : BrokerState) (senderId : String)
    (mpaths : Option (List String)) :
    (handleRelease s senderId mpaths).2 =
      broadcastAll (handleRelease s senderId mpaths).1.agents
        (.reservationsUpdated (getReservations (handleRelease s senderId mpaths).1)) := by
  unfold handleRelease
  simp only []
  repeat' split
  all_goals rfl

/-- C7: every release request from a registered agent triggers exactly one
`reservations_updated` broadcast to each registered agent — even when the
request is a no-op (no entry for the caller, or only unreserved paths
named) — and a no-op release leaves the broker state unchanged. -/
theorem C7_release_broadcast (s : BrokerState) (senderId : String)
    (sender : AgentInfo) (mpaths : Option (List String))
    (hs : alGet s.agents senderId = some sender)
    (hnd : NodupKeys s.agents) :
    (∀ j a, (j, a) ∈ s.agents →
      sendCount (handleRelease s senderId mpaths).2
        (j, .reservationsUpdated
          (getReservations (handleRelease s senderId mpaths).1)) = 1) ∧
    (∀ e ∈ (handleRelease s senderId mpaths).2,
      e.2 = .reservationsUpdated
        (getReservations (handleRelease s senderId mpaths).1)) ∧
    (alGet s.reservations senderId = none →
      (handleRelease s senderId mpaths).1 = s) ∧
    (∀ ex p0 ps', alGet s.reservations senderId = some ex →
      mpaths = some (p0 :: ps') → ex.paths ≠ [] →
      (∀ q ∈ ex.paths, q ∉ ((p0 :: ps').map
        normalizeReservationPath).filter (fun p => p ≠ "")) →
      (handleRelease s senderId mpaths).1 = s) := by
  have hsend := handleRelease_sends s senderId mpaths
  have hag := (agents_handleRelease s senderId mpaths).1
  refine ⟨?_, ?_, ?_, ?_⟩
  · intro j a hmem
    rw [hsend, hag]
    exact sendCount_broadcastAll hnd (List.mem_map.mpr ⟨(j, a), hmem, rfl⟩)
  · intro e he
    rw [hsend] at he
    exact mem_broadcastAll he
  · intro h
    unfold handleRelease
    rw [h]
  · intro ex p0 ps' hget hmp hne hnomatch
    subst hmp
    rw [handleRelease_cons_eq hget]
    have hfil : ex.paths.filter (fun p => ¬ p ∈ ((p0 :: ps').map
        normalizeReservationPath).filter (fun p => p ≠ "")) = ex.paths := by
      rw [List.filter_eq_self]
      intro a ha
      simp only [decide_eq_true_eq]
      exact hnomatch a ha
    rw [hfil, if_neg hne,
      show (⟨ex.paths, ex.reason⟩ : ReservationInfo) = ex from rfl,
      alSet_self_of_alGet hget]

/-- Witness for C7 at a registered agent with no reservation entry: the
no-op release keeps the state and still broadcasts exactly once. -/
theorem C7_release_broadcast_witness :
    (handleRelease c5Init "A" (some ["x"])).1 = c5Init ∧
    sendCount (handleRelease c5Init "A" (some ["x"])).2
      ("A", .reservationsUpdated
        (getReservations (handleRelease c5Init "A" (some ["x"])).1)) = 1 := by
  have h := C7_release_broadcast c5Init "A" agentA (some ["x"]) (by decide)
    (by unfold NodupKeys alKeys c5Init; decide)
  exact ⟨h.2.2.1 rfl, h.1 "A" agentA (by decide)⟩

-- ── C8: no-op rename still broadcasts ──────────────────────────────────

/-- C8 (amended): a rename request whose trimmed new name is **non-empty**
and equals the sender's current display name changes no broker state and
still broadcasts a single `agent_renamed` record (with `oldName` equal to
`newName`) to every registered agent, the sender included. -/
theorem C8_noop_rename (s : BrokerState) (senderId : String)
    (sender : AgentInfo) (nm : String)
    (hs : alGet s.agents senderId = some sender)
    (hnd : NodupKeys s.agents)
    (htrim : jsTrim nm = sender.name)
    (hnonempty : sender.name ≠ "")
    (hmap : alGet s.nameToId sender.name = some senderId) :
    (handleRename s senderId sender nm).1 = s ∧
    (∀ j a, (j, a) ∈ s.agents →
      sendCount (handleRename s senderId sender nm).2
        (j, .agentRenamed senderId sender.name sender.name) = 1) ∧
    (∀ e ∈ (handleRename s senderId sender nm).2,
      e.2 = .agentRenamed senderId sender.name sender.name) := by
  have hexp : handleRename s senderId sender nm =
      (s, broadcastAll s.agents
        (.agentRenamed senderId sender.name sender.name)) := by
    unfold handleRename
    simp only []
    rw [htrim, if_neg hnonempty]
    have hguard : renameTaken s.nameToId senderId sender.name = false := by
      unfold renameTaken
      rw [hmap]
      simp
    rw [hguard]
    rw [if_neg (show ¬ ((false : Bool) = true) from by simp)]
    rw [if_neg (show ¬ sender.name ≠ sender.name from by simp)]
  refine ⟨by rw [hexp], ?_, ?_⟩
  · intro j a hmem
    rw [hexp]
    exact sendCount_broadcastAll hnd (List.mem_map.mpr ⟨(j, a), hmem, rfl⟩)
  · intro e he
    rw [hexp] at he
    exact mem_broadcastAll he

/-- Witness for C8's amended theorem at a concrete two-agent state. -/
theorem C8_noop_rename_witness :
    (handleRename c6State "A" agentA " a ").1 = c6State ∧
    sendCount (handleRename c6State "A" agentA " a ").2
      ("A", .agentRenamed "A" "a" "a") = 1 := by
  have h := C8_noop_rename c6State "A" agentA " a " (by decide)
    (by unfold NodupKeys alKeys c6State; decide) (by decide) (by decide)
    (by decide)
  exact ⟨h.1, h.2.1 "A" agentA (by decide)⟩

/-- C8 counterexample: register with the empty name (which the broker
accepts verbatim), then rename to the empty string.  The trimmed new name
equals the sender's current display name, yet the broker replies with an
`error` record only and broadcasts no `agent_renamed`. -/
theorem C8_counterexample :
    alGet (runOps initState
      [.register "t0" ⟨"X", "", "r", none, "/", true⟩]).agents "X" =
      some ⟨"X", "", "r", none, "/", "idle", [], true, none, some "t0"⟩ ∧
    (handleMessage (runOps initState
      [.register "t0" ⟨"X", "", "r", none, "/", true⟩])
      "X" (.rename "")).2 =
      [("X", .errorMsg "Name cannot be empty" none)] :=
  ⟨rfl, rfl⟩

-- ── C9: release removes only exact normalized matches ──────────────────

/-- C9: a release with paths removes from the caller's entry exactly the
reserved paths whose normalized form equals one of the normalized
released paths (deleting the entry only if it empties), leaves every
other agent's entry untouched, and when no reserved path matches exactly
— for example a released path that merely overlaps a reserved one — the
broker state is unchanged. -/
theorem C9_release_exact_match (s : BrokerState) (senderId : String)
    (ex : ReservationInfo) (p0 : String) (ps' : List String)
    (hget : alGet s.reservations senderId = some ex)
    (hnorm : ∀ p ∈ ex.paths, normalizeReservationPath p = p)
    (hne : ex.paths ≠ []) :
    (alGet (handleRelease s senderId (some (p0 :: ps'))).1.reservations
        senderId =
      (if ex.paths.filter (fun p => ¬ (normalizeReservationPath p) ∈
          ((p0 :: ps').map normalizeReservationPath).filter
            (fun p => p ≠ "")) = [] then none
       else some ⟨ex.paths.filter (fun p => ¬ (normalizeReservationPath p) ∈
          ((p0 :: ps').map normalizeReservationPath).filter
            (fun p => p ≠ "")), ex.reason⟩)) ∧
    (∀ j, j ≠ senderId →
      alGet (handleRelease s senderId (some (p0 :: ps'))).1.reservations j =
        alGet s.reservations j) ∧
    ((∀ q ∈ ex.paths, q ∉ ((p0 :: ps').map
        normalizeReservationPath).filter (fun p => p ≠ "")) →
      (handleRelease s senderId (some (p0 :: ps'))).1 = s) := by
  have hcong : ex.paths.filter (fun p => ¬ p ∈ ((p0 :: ps').map
      normalizeReservationPath).filter (fun p => p ≠ "")) =
      ex.paths.filter (fun p => ¬ (normalizeReservationPath p) ∈
        ((p0 :: ps').map normalizeReservationPath).filter
          (fun p => p ≠ "")) := by
    refine List.filter_congr ?_
    intro a ha
    rw [hnorm a ha]
  refine ⟨?_, ?_, ?_⟩
  · rw [handleRelease_cons_eq hget, hcong]
    by_cases hrem : ex.paths.filter (fun p => ¬ (normalizeReservationPath p) ∈
        ((p0 :: ps').map normalizeReservationPath).filter
          (fun p => p ≠ "")) = []
    · rw [if_pos hrem, if_pos hrem]
      exact alGet_alDelete_self ..
    · rw [if_neg hrem, if_neg hrem]
      exact alGet_alSet_self ..
  · intro j hj
    rw [handleRelease_cons_eq hget, hcong]
    by_cases hrem : ex.paths.filter (fun p => ¬ (normalizeReservationPath p) ∈
        ((p0 :: ps').map normalizeReservationPath).filter
          (fun p => p ≠ "")) = []
    · rw [if_pos hrem]
      exact alGet_alDelete_ne _ hj
    · rw [if_neg hrem]
      exact alGet_alSet_ne _ _ hj
  · intro hnomatch
    rw [handleRelease_cons_eq hget]
    have hfil : ex.paths.filter (fun p => ¬ p ∈ ((p0 :: ps').map
        normalizeReservationPath).filter (fun p => p ≠ "")) = ex.paths := by
      rw [List.filter_eq_self]
      intro a ha
      simp only [decide_eq_true_eq]
      exact hnomatch a ha
    rw [hfil, if_neg hne,
      show (⟨ex.paths, ex.reason⟩ : ReservationInfo) = ex from rfl,
      alSet_self_of_alGet hget]

/-- Witness for C9: releasing a file **beneath** a reserved directory —
overlapping but not equal — leaves the broker state unchanged. -/
theorem C9_release_exact_match_witness :
    (handleRelease c9State "A" (some ["src/dir/file.ts"])).1 = c9State := by
  have h := C9_release_exact_match c9State "A" ⟨["src/dir/"], none⟩
    "src/dir/file.ts" [] rfl (by decide) (by decide)
  exact h.2.2 (by decide)

-- ── C10: channel_create makes the creator the only member ──────────────

/-- C10: a successful `channel_create` creates the channel with the sender
as its only member, records the sender's display name as `createdBy`,
appends the channel to the sender's `channels` list, broadcasts
`channel_created` exactly once to every registered agent (sender
included), and an immediate `channel_send` by the creator succeeds with
just the `channel_sent` ack — no separate `channel_join` needed. -/
theorem C10_channel_create (s : BrokerState) (senderId : String)
    (sender : AgentInfo) (ch : String)
    (hs : alGet s.agents senderId = some sender)
    (hnd : NodupKeys s.agents)
    (hch : alGet s.channels ch = none) :
    alGet (handleChannelCreate s senderId sender ch).1.channels ch =
      some ⟨ch, [senderId], sender.name⟩ ∧
    alGet (handleChannelCreate s senderId sender ch).1.agents senderId =
      some { sender with channels := sender.channels ++ [ch] } ∧
    (∀ j a, (j, a) ∈ s.agents →
      sendCount (handleChannelCreate s senderId sender ch).2
        (j, .channelCreated ch sender.name) = 1) ∧
    (∀ content, (handleMessage (handleChannelCreate s senderId sender ch).1
      senderId (.channelSend ch content)).2 =
      [(senderId, .channelSent ch)]) := by
  have hexp : handleChannelCreate s senderId sender ch =
      ({ s with
          channels := (alSet s.channels ch
            { name := ch, members := [senderId], createdBy := sender.name }),
          agents := (alSet s.agents senderId
            { sender with channels := sender.channels ++ [ch] }) },
       broadcastAll (alSet s.agents senderId
          { sender with channels := sender.channels ++ [ch] })
         (.channelCreated ch sender.name)) := by
    unfold handleChannelCreate
    rw [if_neg (show ¬ alHas s.channels ch = true from by simp [alHas, hch])]
  refine ⟨?_, ?_, ?_, ?_⟩
  · rw [hexp]
    exact alGet_alSet_self ..
  · rw [hexp]
    exact alGet_alSet_self ..
  · intro j a hmem
    rw [hexp]
    refine sendCount_broadcastAll ?_ ?_
    · show (alKeys (alSet s.agents senderId _)).Nodup
      rw [alKeys_alSet_of_mem _ (mem_keys_of_alGet hs)]
      exact hnd
    · show j ∈ alKeys (alSet s.agents senderId _)
      rw [alKeys_alSet_of_mem _ (mem_keys_of_alGet hs)]
      exact List.mem_map.mpr ⟨(j, a), hmem, rfl⟩
  · intro content
    rw [hexp]
    unfold handleMessage
    simp only [alGet_alSet_self]
    unfold handleChannelSend
    simp only [alGet_alSet_self]
    rw [if_neg (show ¬ ¬ senderId ∈ [senderId] from by simp)]
    simp

/-- Witness for C10 at a concrete two-agent state. -/
theorem C10_channel_create_witness :
    alGet (handleChannelCreate c6State "A" agentA "dev").1.channels "dev" =
      some ⟨"dev", ["A"], "a"⟩ ∧
    (handleMessage (handleChannelCreate c6State "A" agentA "dev").1
      "A" (.channelSend "dev" "hi")).2 = [("A", .channelSent "dev")] := by
  have h := C10_channel_create c6State "A" agentA "dev" (by decide)
    (by unfold NodupKeys alKeys c6State; decide) (by decide)
  exact ⟨h.1, h.2.2.2 "hi"⟩

end Hive

